import Mathlib

/-!
Verification of the deployment-orchestration engine of this repository.

The Python sources are shallowly embedded: strings are `List Char`
(`Str`), each regular-expression search used by the code is translated
into an explicit scanning function with the same leftmost-match/lazy
semantics on the inputs of interest, mutable state is threaded
explicitly, and every external process invocation is abstracted by an
oracle giving the spawned command's exit code and captured streams.
-/

/-- Characters are the code points of the Python strings; a Python string
is embedded as its list of characters. -/
abbrev Str := List Char

namespace PyStr

/-- Characters stripped by Python `str.strip()` with no argument
(the ASCII whitespace class used by the inventory and parser code). -/
def pyWs (c : Char) : Bool :=
  c = ' ' || c = '\t' || c = '\n' || c = '\r' || c = Char.ofNat 11 || c = Char.ofNat 12

/-- `str.lstrip()` on the embedded string. -/
def lstrip (s : Str) : Str := s.dropWhile pyWs

/-- `str.rstrip()` on the embedded string: drop trailing whitespace. -/
def rstrip : Str → Str
  | [] => []
  | c :: rest =>
    match rstrip rest, pyWs c with
    | [], true => []
    | r, _ => c :: r

/-- `str.strip()` on the embedded string. -/
def strip (s : Str) : Str := rstrip (lstrip s)

/-- `str.upper()` restricted to the ASCII status words the parser
uppercases (`ok`, `changed`, `failed`, `fatal`). -/
def upper (s : Str) : Str := s.map Char.toUpper

/-- `str.lower()` on the embedded string. -/
def lower (s : Str) : Str := s.map Char.toLower

/-- Python `needle in hay` substring test on embedded strings. -/
def substr (needle : Str) : Str → Bool
  | [] => needle.isEmpty
  | c :: rest => needle.isPrefixOf (c :: rest) || substr needle rest

end PyStr

/-! ## Output Parser and Progress Aggregator of `manager/pages/prerequisites.py` -/

namespace Prereq

open PyStr

/-- Lazy capture used by the patterns `TASK \[(.*?)\]`, `\[(.*?)\]` and
`"(.*?)"`: the shortest run of characters up to the closing `stop`
character; `.` does not cross a newline, and a missing closer fails. -/
def lazyCapture (stop : Char) : Str → Option Str
  | [] => none
  | c :: rest =>
    if c = stop then some []
    else if c = '\n' then none
    else (lazyCapture stop rest).map (c :: ·)

/-- `re.search(r"TASK \[(.*?)\]", line)` of `parse_ansible_line`:
the leftmost position where `TASK [` matches and a closer exists wins. -/
def taskSearch : Str → Option Str
  | [] => none
  | c :: rest =>
    if ("TASK [".data).isPrefixOf (c :: rest) then
      match lazyCapture ']' ((c :: rest).drop 6) with
      | some cap => some cap
      | none => taskSearch rest
    else taskSearch rest

/-- `re.search(r'"msg": "(.*?)"', line)` of `parse_ansible_line`. -/
def msgSearch : Str → Option Str
  | [] => none
  | c :: rest =>
    if ("\"msg\": \"".data).isPrefixOf (c :: rest) then
      match lazyCapture '"' ((c :: rest).drop 8) with
      | some cap => some cap
      | none => msgSearch rest
    else msgSearch rest

/-- The four status keywords of the host-result pattern, in the
alternation order of the regex `^(ok|changed|failed|fatal): \[(.*?)\]`. -/
def statusKeywords : List Str :=
  ["ok".data, "changed".data, "failed".data, "fatal".data]

/-- `re.search(r"^(ok|changed|failed|fatal): \[(.*?)\]", line)`:
anchored at the start of the line; returns (status, host). -/
def statusMatch (l : Str) : Option (Str × Str) :=
  match (statusKeywords.filter (fun kw => (kw ++ (": [".data)).isPrefixOf l)).head? with
  | none => none
  | some kw => (lazyCapture ']' (l.drop (kw.length + 3))).map (fun host => (kw, host))

/-- A structured result row of `run_checks` (the Python dict with keys
`Host`, `Task`, `Status`, `Message`).  The wall-clock `Timestamp` string
taken from `datetime.now()` is real time and is not modelled. -/
structure Row where
  host : Str
  task : Str
  status : Str
  message : Str
deriving DecidableEq, Repr

/-- The partial update returned by `parse_ansible_line`: a full result
row (dict containing `Status`) or a message-only update. -/
inductive Info where
  | row (r : Row)
  | msg (m : Str)
deriving DecidableEq, Repr

/-- `parse_ansible_line(line, current_task, current_host)` of
`manager/pages/prerequisites.py`: returns the new carried task, the new
carried host, and the optional update for the structured table. -/
def parse_ansible_line (line current_task current_host : Str) :
    Str × Str × Option Info :=
  let new_task := (taskSearch line).getD current_task
  match statusMatch line with
  | some (st, host) =>
    (new_task, host, some (.row ⟨host, new_task, upper st, []⟩))
  | none =>
    match msgSearch line with
    | some m => (new_task, current_host, some (.msg m))
    | none => (new_task, current_host, none)

/-- Set the `Message` field of the last row
(`structured_data[-1]["Message"] = ...`). -/
def setLastMessage : List Row → Str → List Row
  | [], _ => []
  | [r], m => [{ r with message := m }]
  | r :: rest, m => r :: setLastMessage rest m

/-- The loop state of `run_checks`: the two carried parser fields and
the structured data accumulated so far. -/
structure RunState where
  task : Str
  host : Str
  rows : List Row
deriving DecidableEq, Repr

/-- One iteration of the line loop of `run_checks`: parse the line, then
append a new row on a `Status` update, amend the last row on a
`Message` update when a row exists, and otherwise leave the table alone. -/
def run_checks_step (s : RunState) (line : Str) : RunState :=
  let p := parse_ansible_line line s.task s.host
  let rows :=
    match p.2.2 with
    | some (.row r) => s.rows ++ [r]
    | some (.msg m) => if s.rows.isEmpty then s.rows else setLastMessage s.rows m
    | none => s.rows
  ⟨p.1, p.2.1, rows⟩

/-- The initial carried state of `run_checks`
(`current_task = "Initializing"`, `current_host = "Local"`). -/
def run_checks_init : RunState := ⟨"Initializing".data, "Local".data, []⟩

/-- Structured table produced by `run_checks` after processing the given
output lines in order from the initial state. -/
def run_checks_rows (lines : List Str) : List Row :=
  (lines.foldl run_checks_step run_checks_init).rows

/-- The three input lines of the concrete scenario of claim C1. -/
def c1Lines : List Str :=
  ["TASK [Install firewall]".data,
   "changed: [10.0.0.5]".data,
   "\"msg\": \"[OK] rules applied\"".data]

end Prereq

/-- C1 (counterexample): on the scenario lines the single produced row does
not carry the status string `changed`: `run_checks` stores
`status.upper()`, so the `Status` field is `CHANGED`, refuting the claim's
literal row. -/
theorem c1_status_is_uppercased :
    ¬ (Prereq.run_checks_rows Prereq.c1Lines =
        [⟨"10.0.0.5".data, "Install firewall".data, "changed".data,
          "[OK] rules applied".data⟩]) := by
  decide

/-- C1 (amended): processing `TASK [Install firewall]`,
`changed: [10.0.0.5]`, `"msg": "[OK] rules applied"` in order from the
initial carried state yields exactly one row, with host `10.0.0.5`, task
`Install firewall`, status `CHANGED` (the parser uppercases the matched
status word), and message `[OK] rules applied`. -/
theorem c1_scenario_single_row :
    Prereq.run_checks_rows Prereq.c1Lines =
      [⟨"10.0.0.5".data, "Install firewall".data, "CHANGED".data,
        "[OK] rules applied".data⟩] := by
  decide

/-- C9: when a line is classified as a message-only update (its quoted
`"msg"` fragment matches but the host-result pattern does not), the table
after processing it equals the old table with the last row's message
overwritten when a row exists, and is unchanged (the message is
discarded, no row created) when the table is empty. -/
theorem c9_message_attachment (lines : List Str) (line : Str) (m : Str)
    (hstatus : Prereq.statusMatch line = none)
    (hmsg : Prereq.msgSearch line = some m) :
    Prereq.run_checks_rows (lines ++ [line]) =
      if (Prereq.run_checks_rows lines).isEmpty then Prereq.run_checks_rows lines
      else Prereq.setLastMessage (Prereq.run_checks_rows lines) m := by
  unfold Prereq.run_checks_rows
  rw [List.foldl_append, List.foldl_cons, List.foldl_nil]
  simp only [Prereq.run_checks_step, Prereq.parse_ansible_line, hstatus, hmsg]

/-- C9 (witness): a concrete run — after a host-result row exists, the
message line `"msg": "done"` overwrites that row's message. -/
theorem c9_message_attachment_witness :
    Prereq.run_checks_rows (["ok: [h1]".data] ++ ["\"msg\": \"done\"".data]) =
      if (Prereq.run_checks_rows ["ok: [h1]".data]).isEmpty then
        Prereq.run_checks_rows ["ok: [h1]".data]
      else Prereq.setLastMessage (Prereq.run_checks_rows ["ok: [h1]".data]) "done".data :=
  c9_message_attachment ["ok: [h1]".data] ("\"msg\": \"done\"".data) ("done".data)
    (by decide) (by decide)

/-! ## Role Dependency Resolver: coupling of `toggle_roles_interactive`
in `src/reef/cli/reef.py` -/

namespace Roles

/-- The control-plane role identifier. -/
def wazuhServer : String := "wazuh-server"

/-- The data-engine role identifier. -/
def wazuhIndexer : String := "wazuh-indexer"

/-- One toggle of `toggle_roles_interactive`: remove the chosen role if
enabled (then apply the strict-coupling OFF rules), otherwise add it
(then apply the strict-coupling ON rules), exactly in the order of the
CLI code. -/
def toggle_role (enabled : Finset String) (role : String) : Finset String :=
  if role ∈ enabled then
    let e1 := enabled.erase role
    let e2 :=
      if role = wazuhServer ∧ wazuhIndexer ∈ e1 then e1.erase wazuhIndexer else e1
    if role = wazuhIndexer ∧ wazuhServer ∈ e2 then e2.erase wazuhServer else e2
  else
    let e1 := insert role enabled
    let e2 :=
      if role = wazuhIndexer ∧ wazuhServer ∉ e1 then insert wazuhServer e1 else e1
    if role = wazuhServer ∧ wazuhIndexer ∉ e2 then insert wazuhIndexer e2 else e2

end Roles

/-- C3: in every selection state, toggling the data-engine role on also
enables the control-plane role and vice versa; toggling either off
removes both; after a toggle of either coupled role the set contains both
or neither; the coupling reacts only to the specifically toggled role — a
toggle of any other role leaves the membership of both coupled roles
unchanged (so from any state satisfying the pair invariant, every toggle
preserves it, and no re-toggling chain occurs). -/
theorem c3_role_coupling (e : Finset String) :
    (Roles.wazuhIndexer ∉ e →
      Roles.wazuhIndexer ∈ Roles.toggle_role e Roles.wazuhIndexer ∧
      Roles.wazuhServer ∈ Roles.toggle_role e Roles.wazuhIndexer) ∧
    (Roles.wazuhServer ∉ e →
      Roles.wazuhServer ∈ Roles.toggle_role e Roles.wazuhServer ∧
      Roles.wazuhIndexer ∈ Roles.toggle_role e Roles.wazuhServer) ∧
    (Roles.wazuhIndexer ∈ e →
      Roles.wazuhIndexer ∉ Roles.toggle_role e Roles.wazuhIndexer ∧
      Roles.wazuhServer ∉ Roles.toggle_role e Roles.wazuhIndexer) ∧
    (Roles.wazuhServer ∈ e →
      Roles.wazuhServer ∉ Roles.toggle_role e Roles.wazuhServer ∧
      Roles.wazuhIndexer ∉ Roles.toggle_role e Roles.wazuhServer) ∧
    (∀ r, r = Roles.wazuhIndexer ∨ r = Roles.wazuhServer →
      (Roles.wazuhIndexer ∈ Roles.toggle_role e r ↔
       Roles.wazuhServer ∈ Roles.toggle_role e r)) ∧
    (∀ r, r ≠ Roles.wazuhIndexer → r ≠ Roles.wazuhServer →
      (Roles.wazuhIndexer ∈ Roles.toggle_role e r ↔ Roles.wazuhIndexer ∈ e) ∧
      (Roles.wazuhServer ∈ Roles.toggle_role e r ↔ Roles.wazuhServer ∈ e)) := by
  have hne : Roles.wazuhIndexer ≠ Roles.wazuhServer := by decide
  refine ⟨?_, ?_, ?_, ?_, ?_, ?_⟩
  · intro h
    simp [Roles.toggle_role, h, hne, Finset.mem_insert]
    by_cases hs : Roles.wazuhServer ∈ e <;>
      simp [hs, hne, hne.symm, Finset.mem_insert]
  · intro h
    simp [Roles.toggle_role, h, hne, hne.symm, Finset.mem_insert]
    by_cases hi : Roles.wazuhIndexer ∈ e <;> simp [hi, hne, hne.symm, Finset.mem_insert]
  · intro h
    simp [Roles.toggle_role, h, hne, Finset.mem_erase]
    by_cases hs : Roles.wazuhServer ∈ e <;>
      simp [hs, hne, hne.symm, Finset.mem_erase, h]
  · intro h
    simp [Roles.toggle_role, h, hne, hne.symm, Finset.mem_erase]
    by_cases hi : Roles.wazuhIndexer ∈ e <;> simp [hi, hne, hne.symm, Finset.mem_erase, h]
  · rintro r (rfl | rfl)
    · by_cases hi : Roles.wazuhIndexer ∈ e
      · by_cases hs : Roles.wazuhServer ∈ e <;>
          simp [Roles.toggle_role, hi, hs, hne, hne.symm, Finset.mem_erase]
      · by_cases hs : Roles.wazuhServer ∈ e <;>
          simp [Roles.toggle_role, hi, hs, hne, hne.symm, Finset.mem_insert]
    · by_cases hs : Roles.wazuhServer ∈ e
      · by_cases hi : Roles.wazuhIndexer ∈ e <;>
          simp [Roles.toggle_role, hi, hs, hne, hne.symm, Finset.mem_erase]
      · by_cases hi : Roles.wazuhIndexer ∈ e <;>
          simp [Roles.toggle_role, hi, hs, hne, hne.symm, Finset.mem_insert]
  · intro r hri hrs
    by_cases hr : r ∈ e <;>
      simp [Roles.toggle_role, hr, hri, hrs, Finset.mem_erase, Finset.mem_insert,
        Ne.symm hri, Ne.symm hrs]

/-- C3 (witness): starting from the empty selection, toggling the
data-engine role enables both coupled roles. -/
theorem c3_role_coupling_witness :
    Roles.wazuhIndexer ∈ Roles.toggle_role ∅ Roles.wazuhIndexer ∧
    Roles.wazuhServer ∈ Roles.toggle_role ∅ Roles.wazuhIndexer :=
  (c3_role_coupling ∅).1 (by simp)

/-! ## Execution-order rule of `tests/verify_order.py` -/

namespace Order

/-- The hardcoded loop order of `verify_ansible_logic`. -/
def static_order : List String :=
  ["cleanup", "common", "wazuh-indexer", "wazuh-server",
   "wazuh-dashboard", "ufw", "fail2ban"]

/-- The simulated Ansible loop: walk the fixed order and keep the roles
the user enabled (`if role_item in enabled_roles`). -/
def executed_order (enabled : List String) : List String :=
  static_order.filter (fun r => decide (r ∈ enabled))

/-- `[static_order.index(r) for r in executed_order]`. -/
def exec_indices (enabled : List String) : List Nat :=
  (executed_order enabled).map (fun r => static_order.indexOf r)

/-- Positions (into a duplicate-free list) of the kept elements of a
filter are strictly increasing. -/
theorem pairwise_indexOf_filter {α : Type} [DecidableEq α] :
    ∀ (l : List α) (p : α → Bool), l.Nodup →
      List.Pairwise (fun x y => l.indexOf x < l.indexOf y) (l.filter p)
  | [], _, _ => List.Pairwise.nil
  | a :: t, p, h => by
    rcases List.nodup_cons.mp h with ⟨ha, ht⟩
    have IH := pairwise_indexOf_filter t p ht
    have lift : List.Pairwise
        (fun x y => (a :: t).indexOf x < (a :: t).indexOf y) (t.filter p) := by
      refine IH.imp_of_mem ?_
      intro x y hx hy hxy
      have hxa : a ≠ x := fun e => ha (e ▸ (List.mem_filter.mp hx).1)
      have hya : a ≠ y := fun e => ha (e ▸ (List.mem_filter.mp hy).1)
      rw [List.indexOf_cons_ne _ hxa, List.indexOf_cons_ne _ hya]
      exact Nat.succ_lt_succ hxy
    by_cases hpa : p a
    · rw [List.filter_cons_of_pos hpa]
      refine List.Pairwise.cons ?_ lift
      intro y hy
      have hya : a ≠ y := fun e => ha (e ▸ (List.mem_filter.mp hy).1)
      rw [List.indexOf_cons_self, List.indexOf_cons_ne _ hya]
      exact Nat.succ_pos _
    · rw [List.filter_cons_of_neg (by simpa using hpa)]
      exact lift

end Order

/-- C4: for every selection `S` and any reordering `T` of it, the
executed sequence is the same (selection order is irrelevant), and its
positions in the fixed total order are strictly increasing. -/
theorem c4_execution_order_monotone (S T : List String) (h : S.Perm T) :
    Order.executed_order S = Order.executed_order T ∧
    List.Pairwise (· < ·) (Order.exec_indices S) := by
  constructor
  · unfold Order.executed_order
    refine List.filter_congr ?_
    intro x _
    exact decide_eq_decide.mpr h.mem_iff
  · unfold Order.exec_indices
    rw [List.pairwise_map]
    exact Order.pairwise_indexOf_filter Order.static_order _ (by decide)

/-- C4 (witness): a concrete shuffled selection — the executed order is
independent of presentation order and has increasing indices. -/
theorem c4_execution_order_monotone_witness :
    Order.executed_order ["wazuh-server", "cleanup", "common"] =
      Order.executed_order ["common", "cleanup", "wazuh-server"] ∧
    List.Pairwise (· < ·)
      (Order.exec_indices ["wazuh-server", "cleanup", "common"]) :=
  c4_execution_order_monotone (["wazuh-server", "cleanup", "common"])
    (["common", "cleanup", "wazuh-server"]) (by decide)

/-! ## Process Runner `run_command` of `src/reef/manager/core.py` -/

namespace RunCmd

/-- Exit code and captured streams of the spawned child process. -/
structure ProcOut where
  rc : Int
  out : String
  err : String
deriving DecidableEq, Repr

/-- Observable console effects of `run_command`: the `Running:` banner,
live (uncaptured) forwarding of the child's streams, the error banner,
and the force-surfaced captured stdout/stderr printed by the
`CalledProcessError` handler in quiet mode. -/
inductive ConsoleEvent where
  | runningBanner
  | live (out err : String)
  | errorBanner
  | surfacedOut (s : String)
  | surfacedErr (s : String)
deriving DecidableEq, Repr

/-- Return value and console effects of one `run_command` call. -/
structure Result where
  retval : Bool
  events : List ConsoleEvent
deriving DecidableEq, Repr

/-- `run_command(command, cwd, quiet)`: the global `VERBOSE_MODE` forces
`quiet = False`; in quiet mode output is captured (`capture_output=True`)
and printed only by the error handler (each stream only when nonempty,
mirroring `if e.stdout:` / `if e.stderr:`); otherwise the child streams
straight to the console.  `check=True` raises on a nonzero exit, so the
function returns `False` exactly when the exit code is nonzero. -/
def run_command (verbose_mode quiet : Bool) (p : ProcOut) : Result :=
  let q := if verbose_mode then false else quiet
  if q then
    if p.rc = 0 then ⟨true, []⟩
    else
      ⟨false,
        [ConsoleEvent.errorBanner] ++
          (if p.out ≠ "" then [ConsoleEvent.surfacedOut p.out] else []) ++
          (if p.err ≠ "" then [ConsoleEvent.surfacedErr p.err] else [])⟩
  else
    if p.rc = 0 then ⟨true, [ConsoleEvent.runningBanner, ConsoleEvent.live p.out p.err]⟩
    else
      ⟨false,
        [ConsoleEvent.runningBanner, ConsoleEvent.live p.out p.err,
         ConsoleEvent.errorBanner]⟩

end RunCmd

/-- C7: with `quiet=True` and the verbose override off, the child's
output is never forwarded live; on a zero exit nothing at all is shown
(the buffered output is discarded); on a nonzero exit each captured
stream is surfaced exactly when it is nonempty.  With `quiet=False` the
output is forwarded live regardless of the outcome. -/
theorem c7_quiet_output_policy (p : RunCmd.ProcOut) :
    (∀ o e, RunCmd.ConsoleEvent.live o e ∉ (RunCmd.run_command false true p).events) ∧
    (p.rc = 0 → (RunCmd.run_command false true p).events = []) ∧
    (p.rc ≠ 0 →
      (RunCmd.ConsoleEvent.surfacedOut p.out ∈ (RunCmd.run_command false true p).events
        ↔ p.out ≠ "") ∧
      (RunCmd.ConsoleEvent.surfacedErr p.err ∈ (RunCmd.run_command false true p).events
        ↔ p.err ≠ "")) ∧
    (RunCmd.ConsoleEvent.live p.out p.err ∈ (RunCmd.run_command false false p).events) := by
  refine ⟨?_, ?_, ?_, ?_⟩
  · intro o e
    by_cases h : p.rc = 0 <;>
      by_cases ho : p.out = "" <;> by_cases he : p.err = "" <;>
        simp [RunCmd.run_command, h, ho, he]
  · intro h
    simp [RunCmd.run_command, h]
  · intro h
    by_cases ho : p.out = "" <;> by_cases he : p.err = "" <;>
      simp [RunCmd.run_command, h, ho, he]
  · by_cases h : p.rc = 0 <;> simp [RunCmd.run_command, h]

/-- C7 (witness): a quiet run that fails with captured stdout `boom` and
empty stderr surfaces exactly the stdout. -/
theorem c7_quiet_output_policy_witness :
    (RunCmd.ConsoleEvent.surfacedOut ("boom") ∈
        (RunCmd.run_command false true ⟨1, "boom", ""⟩).events ↔ ("boom") ≠ "") ∧
    (RunCmd.ConsoleEvent.surfacedErr ("") ∈
        (RunCmd.run_command false true ⟨1, "boom", ""⟩).events ↔ ("") ≠ "") :=
  (c7_quiet_output_policy ⟨1, "boom", ""⟩).2.2.1 (by decide)

/-! ## Environment injection for the configuration-management engine -/

namespace EnvInj

/-- A Python `os.environ.copy()` dictionary, observed through lookups. -/
abbrev Env := String → Option String

/-- `env[key] = value` on a Python dict. -/
def setEnv (env : Env) (k v : String) : Env :=
  fun q => if q = k then some v else env q

/-- The configuration-file environment variable. -/
def ansibleConfigKey : String := "ANSIBLE_CONFIG"

/-- The roles/module search-path environment variable. -/
def ansibleRolesKey : String := "ANSIBLE_ROLES_PATH"

/-- Environment built by `run_command` in `src/reef/manager/core.py`
(lines 32–34): both variables injected over the inherited environment. -/
def run_command_env (base : Env) (cfg roles : String) : Env :=
  setEnv (setEnv base ansibleConfigKey cfg) ansibleRolesKey roles

/-- `_get_ansible_env` of `src/reef/manager/ui_utils.py` (lines 49–53):
both variables injected over the inherited environment. -/
def get_ansible_env (base : Env) (cfg roles : String) : Env :=
  setEnv (setEnv base ansibleConfigKey cfg) ansibleRolesKey roles

/-- Environment built by `render_prerequisites` in
`manager/pages/prerequisites.py` (lines 168–169): only `ANSIBLE_CONFIG`
is set before the playbook is spawned by `run_checks`. -/
def render_prerequisites_env (base : Env) (cfg : String) : Env :=
  setEnv base ansibleConfigKey cfg

end EnvInj

/-- C8 (counterexample): the prerequisites-page invocation does not
inject the roles search path — from an empty inherited environment the
spawned environment has no `ANSIBLE_ROLES_PATH`, and an inherited value
for it is passed through unchanged rather than overridden. -/
theorem c8_prereq_page_omits_roles_path :
    EnvInj.render_prerequisites_env (fun _ => none) ("cfg")
        EnvInj.ansibleRolesKey = none ∧
    EnvInj.render_prerequisites_env
        (fun q => if q = EnvInj.ansibleRolesKey then some ("inherited") else none)
        ("cfg") EnvInj.ansibleRolesKey = some ("inherited") := by
  constructor <;> simp [EnvInj.render_prerequisites_env, EnvInj.setEnv,
    EnvInj.ansibleRolesKey, EnvInj.ansibleConfigKey]

/-- C8 (amended): `run_command` and `_get_ansible_env` always inject both
`ANSIBLE_CONFIG` and `ANSIBLE_ROLES_PATH`, overriding any inherited
values; the prerequisites-page path injects only `ANSIBLE_CONFIG`
(overriding), while `ANSIBLE_ROLES_PATH` keeps its inherited value
there. -/
theorem c8_env_injection (base : EnvInj.Env) (cfg roles : String) :
    EnvInj.run_command_env base cfg roles EnvInj.ansibleConfigKey = some cfg ∧
    EnvInj.run_command_env base cfg roles EnvInj.ansibleRolesKey = some roles ∧
    EnvInj.get_ansible_env base cfg roles EnvInj.ansibleConfigKey = some cfg ∧
    EnvInj.get_ansible_env base cfg roles EnvInj.ansibleRolesKey = some roles ∧
    EnvInj.render_prerequisites_env base cfg EnvInj.ansibleConfigKey = some cfg ∧
    EnvInj.render_prerequisites_env base cfg EnvInj.ansibleRolesKey =
      base EnvInj.ansibleRolesKey := by
  have hne : EnvInj.ansibleConfigKey ≠ EnvInj.ansibleRolesKey := by decide
  refine ⟨?_, ?_, ?_, ?_, ?_, ?_⟩ <;>
    simp [EnvInj.run_command_env, EnvInj.get_ansible_env,
      EnvInj.render_prerequisites_env, EnvInj.setEnv, hne, hne.symm]

/-! ## Execution Context and cancellation of `src/reef/manager/ui_utils.py` -/

namespace UIU

open PyStr

/-- Python `str.split(sep)` for a nonempty separator (used with `]` and
`: [` by the playbook-output parser). -/
def splitOnSub (sep : Str) (s : Str) : List Str :=
  match s with
  | [] => [[]]
  | c :: rest =>
    if hp : sep ≠ [] ∧ sep.isPrefixOf (c :: rest) then
      [] :: splitOnSub sep ((c :: rest).drop sep.length)
    else
      match splitOnSub sep rest with
      | [] => [[c]]
      | p :: ps => (c :: p) :: ps
termination_by s.length
decreasing_by
  · have hlen : 0 < sep.length := List.length_pos.mpr hp.1
    simp only [List.length_drop, List.length_cons]
    omega
  · simp only [List.length_cons]
    omega

/-- The live child handle: its pid and the id of its process group
(the command is spawned with `preexec_fn=os.setsid`). -/
structure Handle where
  pid : Nat
  pgid : Nat
deriving DecidableEq, Repr

/-- The process-wide `AppState` of `ui_utils.py`: the status label
`running_process` and the active handle `current_process`. -/
structure AppState where
  running_process : Option String
  current_process : Option Handle
deriving DecidableEq, Repr

/-- An OS signal delivery performed by the engine
(`os.killpg(os.getpgid(pid), signal.SIGTERM)`). -/
inductive SigAction where
  | killpg (pgid : Nat) (sig : Int)
deriving DecidableEq, Repr

/-- `signal.SIGTERM`. -/
def sigterm : Int := 15

/-- `AppState.cancel_process`: when a handle is active, send SIGTERM to
its whole process group and set the status label to `Stopping...`; with
no active handle, do nothing. -/
def cancel_process (s : AppState) : AppState × List SigAction :=
  match s.current_process with
  | some p =>
    ({ s with running_process := some ("Stopping...") }, [SigAction.killpg p.pgid sigterm])
  | none => (s, [])

/-- A parsed task-result row of `async_run_ansible_playbook`. -/
structure TaskRow where
  host : Str
  task : Str
  status : Str
deriving DecidableEq, Repr

/-- Parsing of one (already stripped) output line inside the read loop of
`async_run_ansible_playbook`: a `TASK [` line updates the current task; a
host-result line splits off `status: [host` before the first `]` and
appends a row; the two-element tuple unpacking of `meta.split(": [")`
raises `ValueError` when the split does not yield exactly two parts. -/
def lineStep (current_task text : Str) : Except Unit (Str × Option TaskRow) :=
  if ("TASK [".data).isPrefixOf text then
    match Prereq.taskSearch text with
    | some t => .ok (t, none)
    | none => .ok (current_task, none)
  else if ("ok: [".data).isPrefixOf text || ("changed: [".data).isPrefixOf text
      || ("failed: [".data).isPrefixOf text || ("fatal: [".data).isPrefixOf text then
    match splitOnSub ("]".data) text with
    | [] => .ok (current_task, none)
    | meta :: _ =>
      if substr (": [".data) meta then
        match splitOnSub (": [".data) meta with
        | [status_part, host_part] =>
          .ok (current_task, some ⟨strip host_part, current_task, strip status_part⟩)
        | _ => .error ()
      else .ok (current_task, none)
  else .ok (current_task, none)

/-- The read loop of `async_run_ansible_playbook`: strip and capture each
line, parse it, and stop with `raised = true` if a line raises. -/
def loop (task : Str) (captured : List Str) (results : List TaskRow) :
    List Str → List Str × List TaskRow × Bool
  | [] => (captured, results, false)
  | l :: ls =>
    let text := strip l
    let captured' := captured ++ [text]
    match lineStep task text with
    | .error _ => (captured', results, true)
    | .ok (task', row) =>
      let results' := match row with | some r => results ++ [r] | none => results
      loop task' captured' results' ls

/-- The user-facing notification chosen from the exit code. -/
inductive Notice where
  | success
  | stoppedByUser
  | failed (rc : Int)
deriving DecidableEq, Repr

/-- The notify branch of `async_run_ansible_playbook`: exit 0 is success,
exit `-15` (SIGTERM) is `stopped by user`, anything else is a failure. -/
def notifyOf (rc : Int) : Notice :=
  if rc = 0 then .success else if rc = -15 then .stoppedByUser else .failed rc

/-- Observable outcome of one `async_run_ansible_playbook` run. -/
structure RunResult where
  finalState : AppState
  signals : List SigAction
  notice : Option Notice
  returncode : Option Int
  output : Option (List Str)
  results : Option (List TaskRow)
deriving DecidableEq, Repr

/-- `async_run_ansible_playbook(command, log)`: process the stream, then
notify from the exit code; the `finally` block unconditionally clears
`running_process` and `current_process`, and when the run ended with the
process unreaped (`returncode is None`, the exception path) it SIGTERMs
the whole process group.  `h` is the spawned handle and `rc` the exit
code the process would report when waited for. -/
def async_run_ansible_playbook (h : Handle) (lines : List Str) (rc : Int) : RunResult :=
  let r := loop ("Starting".data) [] [] lines
  if r.2.2 then
    { finalState := ⟨none, none⟩, signals := [SigAction.killpg h.pgid sigterm],
      notice := none, returncode := none, output := none, results := none }
  else
    { finalState := ⟨none, none⟩, signals := [],
      notice := some (notifyOf rc), returncode := some rc,
      output := some r.1, results := some r.2.1 }

end UIU

/-- C5: cancelling with an active handle delivers SIGTERM to that
handle's whole process group; on every termination path of the playbook
runner (normal exit of any code, or an exception raised mid-loop) the
guaranteed-release block clears both `running_process` and
`current_process` to `None`; and a reaped exit code of `-15` is reported
as stopped-by-user, never as a failure. -/
theorem c5_cancel_and_release (s : UIU.AppState) (h : UIU.Handle)
    (lines : List Str) (rc : Int) :
    (s.current_process = some h →
      (UIU.cancel_process s).2 = [UIU.SigAction.killpg h.pgid UIU.sigterm] ∧
      (UIU.cancel_process s).1.running_process = some ("Stopping...")) ∧
    ((UIU.async_run_ansible_playbook h lines rc).finalState.running_process = none ∧
     (UIU.async_run_ansible_playbook h lines rc).finalState.current_process = none) ∧
    (rc = -15 →
      (UIU.async_run_ansible_playbook h lines rc).notice ≠
          some (UIU.Notice.failed rc) ∧
      ((UIU.async_run_ansible_playbook h lines rc).returncode = some rc →
        (UIU.async_run_ansible_playbook h lines rc).notice =
          some UIU.Notice.stoppedByUser)) ∧
    ((UIU.async_run_ansible_playbook h lines rc).returncode = none →
      (UIU.async_run_ansible_playbook h lines rc).signals =
        [UIU.SigAction.killpg h.pgid UIU.sigterm]) := by
  refine ⟨?_, ?_, ?_, ?_⟩
  · intro hcur
    simp [UIU.cancel_process, hcur]
  · by_cases hr : (UIU.loop ("Starting".data) [] [] lines).2.2 <;>
      simp [UIU.async_run_ansible_playbook, hr]
  · rintro rfl
    by_cases hr : (UIU.loop ("Starting".data) [] [] lines).2.2 <;>
      simp [UIU.async_run_ansible_playbook, hr, UIU.notifyOf]
  · intro hnone
    by_cases hr : (UIU.loop ("Starting".data) [] [] lines).2.2 <;>
      simp_all [UIU.async_run_ansible_playbook]

/-- C5 (witness): cancelling a state whose active handle has process
group 7 emits exactly one SIGTERM to group 7 and flips the label, and a
clean run reporting `-15` is announced as stopped-by-user with the
state fields cleared. -/
theorem c5_cancel_and_release_witness :
    ((UIU.cancel_process ⟨some ("Running Playbook..."), some ⟨3, 7⟩⟩).2 =
        [UIU.SigAction.killpg 7 UIU.sigterm] ∧
      (UIU.cancel_process ⟨some ("Running Playbook..."), some ⟨3, 7⟩⟩).1.running_process =
        some ("Stopping...")) ∧
    ((UIU.async_run_ansible_playbook ⟨3, 7⟩ [] (-15)).returncode = some (-15) →
      (UIU.async_run_ansible_playbook ⟨3, 7⟩ [] (-15)).notice =
        some UIU.Notice.stoppedByUser) :=
  ⟨(c5_cancel_and_release ⟨some ("Running Playbook..."), some ⟨3, 7⟩⟩ ⟨3, 7⟩ [] (-15)).1
      (by rfl),
   ((c5_cancel_and_release ⟨some ("Running Playbook..."), some ⟨3, 7⟩⟩ ⟨3, 7⟩ [] (-15)).2.2.1
      (by rfl)).2⟩

/-! ## Remote Provisioning Orchestrator `run_terraform_apply` of
`src/reef/manager/core.py`

Every `subprocess.run` of the workflow is abstracted by an oracle
`exec : Step → CmdOut` giving that invocation's exit code and captured
streams; the value returned by the Python function and the ordered list
of invocations actually spawned are computed from it. -/

namespace TF

/-- The remote invocations of `run_terraform_apply`, in source order;
the retry steps carry the rewritten memory size. -/
inductive Step where
  | checkTf
  | installTf
  | repairDpkg
  | checkService
  | installLibvirt
  | checkDaemon
  | startDaemon
  | addGroup
  | restartDaemon
  | verifySocket
  | installGeniso
  | scpScript
  | execScript
  | mkdirRemote
  | scpFiles
  | checkReef
  | replaceNet
  | tfvarsUpdate
  | netCheck
  | forceActivation
  | cleanupVm (name : String)
  | tfInit
  | tfPlan
  | tfApply
  | sedMem (m : Nat)
  | tfPlanRetry (m : Nat)
  | tfApplyRetry (m : Nat)
deriving DecidableEq, Repr

/-- Exit code and captured streams of one spawned invocation. -/
structure CmdOut where
  returncode : Int
  stdout : String
  stderr : String
deriving DecidableEq, Repr

/-- The `{'success': ..., 'message': ..., 'output': ...}` dict returned
by `run_terraform_apply` (`output` is `''` when the dict has no such
key). -/
structure TFRes where
  success : Bool
  message : String
  output : String
deriving DecidableEq, Repr

/-- Python `pat in s` on the `str` values of this module. -/
def contains (pat s : String) : Bool := PyStr.substr pat.data s.data

/-- Python `s.lower()`. -/
def strLower (s : String) : String := ⟨PyStr.lower s.data⟩

/-- The auto-retry loop `for new_mem in [512, 256]` after a
memory-signature apply failure: rewrite the memory size, re-plan
(continuing to the next candidate when the plan fails), re-apply
(returning success immediately when it succeeds), continue on a further
memory-signature failure and break out (reporting the exhausted ladder)
on any other failure. -/
def retryLadder (exec : Step → CmdOut) : List Nat → List Step → TFRes × List Step
  | [], tr =>
    (⟨false,
      "terraform apply failed due to insufficient RAM on manager (auto-retries exhausted)",
      ""⟩, tr)
  | m :: rest, tr =>
    let tr1 := tr ++ [Step.sedMem m]
    let rp := exec (Step.tfPlanRetry m)
    let tr2 := tr1 ++ [Step.tfPlanRetry m]
    if rp.returncode != 0 then retryLadder exec rest tr2
    else
      let ra := exec (Step.tfApplyRetry m)
      let tr3 := tr2 ++ [Step.tfApplyRetry m]
      if ra.returncode == 0 then
        (⟨true, "Terraform apply successful (memory adjusted)", ra.stdout⟩, tr3)
      else if contains ("Cannot allocate memory") ra.stdout
          || contains ("cannot set up guest memory") ra.stderr then
        retryLadder exec rest tr3
      else
        (⟨false,
          "terraform apply failed due to insufficient RAM on manager (auto-retries exhausted)",
          ""⟩, tr3)

/-- Step 6, `terraform apply` plus its failure analysis: a zero exit
returns success; a nonzero exit whose combined stdout/stderr matches a
memory-allocation signature enters the retry ladder with candidates
`[512, 256]`; any other failure is returned with the captured stderr. -/
def phaseApply (exec : Step → CmdOut) (tr : List Step) : TFRes × List Step :=
  let ra := exec Step.tfApply
  let tr1 := tr ++ [Step.tfApply]
  if ra.returncode == 0 then
    (⟨true, "Terraform apply successful", ra.stdout⟩, tr1)
  else
    let apply_out := ra.stdout ++ "\n" ++ ra.stderr
    if contains ("Cannot allocate memory") apply_out
        || contains ("cannot set up guest memory") apply_out then
      retryLadder exec [512, 256] tr1
    else
      (⟨false, "terraform apply failed: " ++ ra.stderr, ""⟩, tr1)

/-- Step 5, `terraform plan`: a nonzero exit aborts with the captured
stderr. -/
def phasePlan (exec : Step → CmdOut) (tr : List Step) : TFRes × List Step :=
  let rp := exec Step.tfPlan
  let tr1 := tr ++ [Step.tfPlan]
  if rp.returncode != 0 then
    (⟨false, "terraform plan failed: " ++ rp.stderr, ""⟩, tr1)
  else phaseApply exec tr1

/-- Step 4, `terraform init`: a nonzero exit aborts with the captured
stderr. -/
def phaseInit (exec : Step → CmdOut) (tr : List Step) : TFRes × List Step :=
  let ri := exec Step.tfInit
  let tr1 := tr ++ [Step.tfInit]
  if ri.returncode != 0 then
    (⟨false, "terraform init failed: " ++ ri.stderr, ""⟩, tr1)
  else phasePlan exec tr1

/-- Destroy/undefine any pre-existing VM with a name found in the local
`main.tf` (`names = none` when the file is absent or unreadable); the
cleanup results are never inspected. -/
def phaseCleanup (exec : Step → CmdOut) (names : Option (List String))
    (tr : List Step) : TFRes × List Step :=
  phaseInit exec (tr ++ (names.getD []).map Step.cleanupVm)

/-- The detailed network verification: when its output reports an
inactive network a force-activation is attempted (its own result is only
logged). -/
def phaseNetCheck (exec : Step → CmdOut) (names : Option (List String))
    (tr : List Step) : TFRes × List Step :=
  let rn := exec Step.netCheck
  let tr1 := tr ++ [Step.netCheck]
  if contains ("Active:         no") rn.stdout
      || contains ("inactive") (strLower rn.stdout) then
    phaseCleanup exec names (tr1 ++ [Step.forceActivation])
  else phaseCleanup exec names tr1

/-- Step 3, rewrite of the remote `terraform.tfvars` to the local
libvirt URI: a failure is only logged as a warning and the workflow
continues. -/
def phaseTfvars (exec : Step → CmdOut) (names : Option (List String))
    (tr : List Step) : TFRes × List Step :=
  phaseNetCheck exec names (tr ++ [Step.tfvarsUpdate])

/-- The `reef`-network switch guarded by `try`: reading
`created_reef_network` raises `NameError` when the setup-script branch
never assigned it (swallowed by the bare `except`), otherwise the
fallback network is probed when needed and `main.tf` rewritten to use
it. -/
def phaseReef (exec : Step → CmdOut) (names : Option (List String))
    (createdReef : Option Bool) (tr : List Step) : TFRes × List Step :=
  match createdReef with
  | none => phaseTfvars exec names tr
  | some c =>
    if c then phaseTfvars exec names (tr ++ [Step.replaceNet])
    else
      let rr := exec Step.checkReef
      let tr1 := tr ++ [Step.checkReef]
      if rr.returncode == 0 then phaseTfvars exec names (tr1 ++ [Step.replaceNet])
      else phaseTfvars exec names tr1

/-- Steps 1–2, remote directory creation and file copy: either failing
aborts with the captured stderr. -/
def phaseCopy (exec : Step → CmdOut) (names : Option (List String))
    (createdReef : Option Bool) (tr : List Step) : TFRes × List Step :=
  let rm := exec Step.mkdirRemote
  let tr1 := tr ++ [Step.mkdirRemote]
  if rm.returncode != 0 then
    (⟨false, "Failed to create remote directory: " ++ rm.stderr, ""⟩, tr1)
  else
    let rc := exec Step.scpFiles
    let tr2 := tr1 ++ [Step.scpFiles]
    if rc.returncode != 0 then
      (⟨false, "Failed to copy Terraform files: " ++ rc.stderr, ""⟩, tr2)
    else phaseReef exec names createdReef tr2

/-- Upload and run of the comprehensive libvirt setup script: results
are only logged; `created_reef_network` is assigned only when the script
produced stderr output and a log callback is attached. -/
def phaseScript (exec : Step → CmdOut) (log : Bool) (names : Option (List String))
    (tr : List Step) : TFRes × List Step :=
  let re := exec Step.execScript
  let createdReef : Option Bool :=
    if re.stderr ≠ "" ∧ log then
      some (contains ("FALLBACK_REEF_NETWORK") re.stdout)
    else none
  phaseCopy exec names createdReef (tr ++ [Step.scpScript, Step.execScript])

/-- `genisoimage` installation: failing, or not reporting a `mkisofs`
binary, aborts with the captured stderr. -/
def phaseGeniso (exec : Step → CmdOut) (log : Bool) (names : Option (List String))
    (tr : List Step) : TFRes × List Step :=
  let rg := exec Step.installGeniso
  let tr1 := tr ++ [Step.installGeniso]
  if rg.returncode != 0 || !(contains ("mkisofs") rg.stdout) then
    (⟨false, "Failed to install genisoimage (mkisofs): " ++ rg.stderr, ""⟩, tr1)
  else phaseScript exec log names tr1

/-- Group membership, daemon restart and socket verification: all three
results are only logged (warnings); the workflow always continues. -/
def phaseGroups (exec : Step → CmdOut) (log : Bool) (names : Option (List String))
    (tr : List Step) : TFRes × List Step :=
  phaseGeniso exec log names
    (tr ++ [Step.addGroup, Step.restartDaemon, Step.verifySocket])

/-- libvirt daemon activity probe: when inactive a start is attempted,
whose failure is only a logged warning. -/
def phaseDaemon (exec : Step → CmdOut) (log : Bool) (names : Option (List String))
    (tr : List Step) : TFRes × List Step :=
  let rd := exec Step.checkDaemon
  let tr1 := tr ++ [Step.checkDaemon]
  if rd.returncode != 0 || !(contains ("active") rd.stdout) then
    phaseGroups exec log names (tr1 ++ [Step.startDaemon])
  else phaseGroups exec log names tr1

/-- libvirt service probe: when the service is missing an install is
attempted and its failure aborts with the captured stderr. -/
def phaseService (exec : Step → CmdOut) (log : Bool) (names : Option (List String))
    (tr : List Step) : TFRes × List Step :=
  let rs := exec Step.checkService
  let tr1 := tr ++ [Step.checkService]
  if rs.returncode != 0 || !(contains ("libvirtd") rs.stdout) then
    let ri := exec Step.installLibvirt
    let tr2 := tr1 ++ [Step.installLibvirt]
    if ri.returncode != 0 then
      (⟨false, "Failed to install libvirt: " ++ ri.stderr, ""⟩, tr2)
    else phaseDaemon exec log names tr2
  else phaseDaemon exec log names tr1

/-- apt/dpkg repair: its result is never inspected. -/
def phaseRepair (exec : Step → CmdOut) (log : Bool) (names : Option (List String))
    (tr : List Step) : TFRes × List Step :=
  phaseService exec log names (tr ++ [Step.repairDpkg])

/-- Step 0, the `which terraform` probe: when it fails an install is
attempted whose failure is only a logged warning (the workflow
continues either way). -/
def phaseCheckTf (exec : Step → CmdOut) (log : Bool) (names : Option (List String))
    (tr : List Step) : TFRes × List Step :=
  let r := exec Step.checkTf
  let tr1 := tr ++ [Step.checkTf]
  if r.returncode != 0 then phaseRepair exec log names (tr1 ++ [Step.installTf])
  else phaseRepair exec log names tr1

/-- `run_terraform_apply(terraform_dir, log_callback, ssh_password,
manager_ip, manager_user)`: the early guards (missing directory,
missing credentials) and the step chain. -/
def run_terraform_apply (exec : Step → CmdOut) (log : Bool)
    (dirExists argsOk : Bool) (names : Option (List String)) :
    TFRes × List Step :=
  if !dirExists then (⟨false, "Terraform dir not found", ""⟩, [])
  else if !argsOk then (⟨false, "Manager IP, user, and password required", ""⟩, [])
  else phaseCheckTf exec log names []

end TF

namespace TF

/-- A successful `which terraform` probe. -/
def tfProbeOk (exec : Step → CmdOut) : Prop :=
  (exec Step.checkTf).returncode = 0

/-- The libvirt service probe reports an installed service. -/
def serviceOk (exec : Step → CmdOut) : Prop :=
  (exec Step.checkService).returncode = 0 ∧
  contains ("libvirtd") (exec Step.checkService).stdout = true

/-- The libvirt daemon probe reports an active daemon. -/
def daemonOk (exec : Step → CmdOut) : Prop :=
  (exec Step.checkDaemon).returncode = 0 ∧
  contains ("active") (exec Step.checkDaemon).stdout = true

/-- `genisoimage` installs and `mkisofs` is found. -/
def genisoOk (exec : Step → CmdOut) : Prop :=
  (exec Step.installGeniso).returncode = 0 ∧
  contains ("mkisofs") (exec Step.installGeniso).stdout = true

/-- The setup script produces no stderr output (so the reef-network
branch is skipped). -/
def scriptQuiet (exec : Step → CmdOut) : Prop :=
  (exec Step.execScript).stderr = ""

/-- Remote directory creation and file copy succeed. -/
def copyOk (exec : Step → CmdOut) : Prop :=
  (exec Step.mkdirRemote).returncode = 0 ∧ (exec Step.scpFiles).returncode = 0

/-- The detailed network verification reports an active network. -/
def netOk (exec : Step → CmdOut) : Prop :=
  contains ("Active:         no") (exec Step.netCheck).stdout = false ∧
  contains ("inactive") (strLower (exec Step.netCheck).stdout) = false

/-- `terraform init` and `terraform plan` succeed. -/
def initPlanOk (exec : Step → CmdOut) : Prop :=
  (exec Step.tfInit).returncode = 0 ∧ (exec Step.tfPlan).returncode = 0

/-- All probes and steps up to (and excluding) the first
`terraform apply` take their untroubled branch. -/
def happyPre (exec : Step → CmdOut) : Prop :=
  tfProbeOk exec ∧ serviceOk exec ∧ daemonOk exec ∧ genisoOk exec ∧
  scriptQuiet exec ∧ copyOk exec ∧ netOk exec ∧ initPlanOk exec

/-- The invocation sequence of the untroubled path up to (and
excluding) the first `terraform apply`, with no VM names to clean up. -/
def happyTrace : List Step :=
  [Step.checkTf, Step.repairDpkg, Step.checkService, Step.checkDaemon,
   Step.addGroup, Step.restartDaemon, Step.verifySocket, Step.installGeniso,
   Step.scpScript, Step.execScript, Step.mkdirRemote, Step.scpFiles,
   Step.tfvarsUpdate, Step.netCheck, Step.tfInit, Step.tfPlan]

/-- On the untroubled pre-apply path the whole workflow reduces to the
apply phase with the expected trace. -/
theorem happy_path (exec : Step → CmdOut) (log : Bool) (h : happyPre exec) :
    run_terraform_apply exec log true true none = phaseApply exec happyTrace := by
  obtain ⟨h0, ⟨h1, h2⟩, ⟨h3, h4⟩, ⟨h5, h6⟩, h7, ⟨h8, h9⟩, ⟨h10, h11⟩, h12, h13⟩ := h
  simp only [tfProbeOk] at h0
  simp only [scriptQuiet] at h7
  simp only [run_terraform_apply, phaseCheckTf, phaseRepair, phaseService,
    phaseDaemon, phaseGroups, phaseGeniso, phaseScript, phaseCopy, phaseReef,
    phaseTfvars, phaseNetCheck, phaseCleanup, phaseInit, phasePlan,
    h0, h1, h2, h3, h4, h5, h6, h7, h8, h9, h10, h11, h12, h13]
  simp [happyTrace, h7]

end TF

/-- The untroubled-path condition is a finite conjunction of decidable
facts about the oracle, so it can be checked by evaluation. -/
instance (exec : TF.Step → TF.CmdOut) : Decidable (TF.happyPre exec) := by
  unfold TF.happyPre TF.tfProbeOk TF.serviceOk TF.daemonOk TF.genisoOk
    TF.scriptQuiet TF.copyOk TF.netOk TF.initPlanOk
  infer_instance

/-- The trace of a run that failed the first apply with a memory
signature and then walked both rungs of the retry ladder. -/
def TF.fullLadderTrace : List TF.Step :=
  TF.happyTrace ++
    [TF.Step.tfApply, TF.Step.sedMem 512, TF.Step.tfPlanRetry 512,
     TF.Step.tfApplyRetry 512, TF.Step.sedMem 256, TF.Step.tfPlanRetry 256,
     TF.Step.tfApplyRetry 256]

/-- C2: on the untroubled pre-apply path, when the first apply fails
with a memory-allocation signature the orchestrator walks the candidate
ladder `[512, 256]`, re-running plan and apply after each rewrite.  If
the 512 retry fails with a memory signature and the 256 retry succeeds,
the run returns success (`memory adjusted`) and the trace ends at the
256 apply — no further candidate is attempted; if both retries fail with
memory signatures, the run returns failure reporting the exhausted
ladder as the cause. -/
theorem c2_memory_retry_ladder (exec : TF.Step → TF.CmdOut) (log : Bool)
    (h : TF.happyPre exec)
    (hA : (exec TF.Step.tfApply).returncode ≠ 0)
    (hAm : (TF.contains ("Cannot allocate memory")
          ((exec TF.Step.tfApply).stdout ++ "\n" ++ (exec TF.Step.tfApply).stderr)
        || TF.contains ("cannot set up guest memory")
          ((exec TF.Step.tfApply).stdout ++ "\n" ++ (exec TF.Step.tfApply).stderr)) = true)
    (hp1 : (exec (TF.Step.tfPlanRetry 512)).returncode = 0)
    (ha1 : (exec (TF.Step.tfApplyRetry 512)).returncode ≠ 0)
    (hm1 : (TF.contains ("Cannot allocate memory") (exec (TF.Step.tfApplyRetry 512)).stdout
        || TF.contains ("cannot set up guest memory")
            (exec (TF.Step.tfApplyRetry 512)).stderr) = true)
    (hp2 : (exec (TF.Step.tfPlanRetry 256)).returncode = 0) :
    ((exec (TF.Step.tfApplyRetry 256)).returncode = 0 →
      TF.run_terraform_apply exec log true true none =
        (⟨true, "Terraform apply successful (memory adjusted)",
          (exec (TF.Step.tfApplyRetry 256)).stdout⟩, TF.fullLadderTrace)) ∧
    ((exec (TF.Step.tfApplyRetry 256)).returncode ≠ 0 →
      (TF.contains ("Cannot allocate memory") (exec (TF.Step.tfApplyRetry 256)).stdout
        || TF.contains ("cannot set up guest memory")
            (exec (TF.Step.tfApplyRetry 256)).stderr) = true →
      TF.run_terraform_apply exec log true true none =
        (⟨false,
          "terraform apply failed due to insufficient RAM on manager (auto-retries exhausted)",
          ""⟩, TF.fullLadderTrace)) := by
  rw [TF.happy_path exec log h]
  constructor
  · intro ha2
    simp only [TF.phaseApply, TF.retryLadder, hA, hAm, hp1, ha1, hm1, hp2, ha2,
      TF.fullLadderTrace]
    simp [hA, ha1, hm1, TF.fullLadderTrace, List.append_assoc]
  · intro ha2 hm2
    simp only [TF.phaseApply, TF.retryLadder, hA, hAm, hp1, ha1, hm1, hp2, ha2, hm2]
    simp [hA, ha1, hm1, ha2, hm2, TF.fullLadderTrace, List.append_assoc]

/-- Oracle of the C2 success scenario: untroubled pre-apply path, memory
failure at the default size, memory failure at 512, success at 256. -/
def TF.c2execSuccess : TF.Step → TF.CmdOut
  | TF.Step.checkService => ⟨0, "libvirtd.service enabled", ""⟩
  | TF.Step.checkDaemon => ⟨0, "active", ""⟩
  | TF.Step.installGeniso => ⟨0, "/usr/bin/mkisofs", ""⟩
  | TF.Step.tfApply => ⟨1, "Error: Cannot allocate memory", ""⟩
  | TF.Step.tfApplyRetry 512 => ⟨1, "Cannot allocate memory", ""⟩
  | TF.Step.tfApplyRetry _ => ⟨0, "Apply complete", ""⟩
  | _ => ⟨0, "", ""⟩

/-- Oracle of the C2 exhaustion scenario: both retries fail with the
memory signature. -/
def TF.c2execExhausted : TF.Step → TF.CmdOut
  | TF.Step.checkService => ⟨0, "libvirtd.service enabled", ""⟩
  | TF.Step.checkDaemon => ⟨0, "active", ""⟩
  | TF.Step.installGeniso => ⟨0, "/usr/bin/mkisofs", ""⟩
  | TF.Step.tfApply => ⟨1, "Error: Cannot allocate memory", ""⟩
  | TF.Step.tfApplyRetry _ => ⟨1, "Cannot allocate memory", ""⟩
  | _ => ⟨0, "", ""⟩

/-- C2 (witness): on the two concrete scenario oracles the run returns,
respectively, success after the 256 retry with the full-ladder trace,
and the exhausted-ladder failure. -/
theorem c2_memory_retry_ladder_witness :
    TF.run_terraform_apply TF.c2execSuccess false true true none =
      (⟨true, "Terraform apply successful (memory adjusted)",
        (TF.c2execSuccess (TF.Step.tfApplyRetry 256)).stdout⟩, TF.fullLadderTrace) ∧
    TF.run_terraform_apply TF.c2execExhausted false true true none =
      (⟨false,
        "terraform apply failed due to insufficient RAM on manager (auto-retries exhausted)",
        ""⟩, TF.fullLadderTrace) :=
  ⟨(c2_memory_retry_ladder TF.c2execSuccess false (by decide) (by decide) (by decide)
      (by decide) (by decide) (by decide) (by decide)).1 (by decide),
   (c2_memory_retry_ladder TF.c2execExhausted false (by decide) (by decide) (by decide)
      (by decide) (by decide) (by decide) (by decide)).2 (by decide) (by decide)⟩

/-- The pre-apply conditions up to (and excluding) the remote copy
steps. -/
def TF.preToCopy (exec : TF.Step → TF.CmdOut) : Prop :=
  TF.tfProbeOk exec ∧ TF.serviceOk exec ∧ TF.daemonOk exec ∧
  TF.genisoOk exec ∧ TF.scriptQuiet exec

/-- The invocation sequence of the untroubled path up to (and
excluding) the remote directory creation. -/
def TF.preCopyTrace : List TF.Step :=
  [TF.Step.checkTf, TF.Step.repairDpkg, TF.Step.checkService, TF.Step.checkDaemon,
   TF.Step.addGroup, TF.Step.restartDaemon, TF.Step.verifySocket,
   TF.Step.installGeniso, TF.Step.scpScript, TF.Step.execScript]

/-- Decidability of the pre-copy condition, for concrete checks. -/
instance (exec : TF.Step → TF.CmdOut) : Decidable (TF.preToCopy exec) := by
  unfold TF.preToCopy TF.tfProbeOk TF.serviceOk TF.daemonOk TF.genisoOk
    TF.scriptQuiet
  infer_instance

/-- Oracle on which the non-retry-eligible steps named by claim C6 all
exit nonzero (terraform-binary install, dpkg repair, daemon start, group
addition, daemon restart, socket check, script upload, setup script,
tfvars rewrite) while the checked steps and the apply succeed. -/
def TF.c6exec : TF.Step → TF.CmdOut
  | TF.Step.checkTf => ⟨1, "", ""⟩
  | TF.Step.installTf => ⟨1, "", "install failed"⟩
  | TF.Step.repairDpkg => ⟨1, "", "dpkg failed"⟩
  | TF.Step.checkService => ⟨0, "libvirtd.service enabled", ""⟩
  | TF.Step.checkDaemon => ⟨1, "", ""⟩
  | TF.Step.startDaemon => ⟨1, "", "start failed"⟩
  | TF.Step.addGroup => ⟨1, "", "usermod failed"⟩
  | TF.Step.restartDaemon => ⟨1, "", "restart failed"⟩
  | TF.Step.verifySocket => ⟨1, "", ""⟩
  | TF.Step.installGeniso => ⟨0, "/usr/bin/mkisofs", ""⟩
  | TF.Step.scpScript => ⟨1, "", "scp failed"⟩
  | TF.Step.execScript => ⟨1, "boom", ""⟩
  | TF.Step.tfvarsUpdate => ⟨1, "", "tfvars failed"⟩
  | TF.Step.tfApply => ⟨0, "Applied OK", ""⟩
  | _ => ⟨0, "", ""⟩

/-- C6 (counterexample): on `c6exec` the terraform-binary install, dpkg
repair, group addition, daemon restart and remote-tfvars rewrite all
exit nonzero, yet the workflow does not abort: it continues to the apply
step and returns overall success — refuting the claim that a nonzero
exit of any of these steps aborts immediately with failure. -/
theorem c6_nonfatal_steps_do_not_abort :
    (TF.c6exec TF.Step.installTf).returncode ≠ 0 ∧
    (TF.c6exec TF.Step.repairDpkg).returncode ≠ 0 ∧
    (TF.c6exec TF.Step.addGroup).returncode ≠ 0 ∧
    (TF.c6exec TF.Step.restartDaemon).returncode ≠ 0 ∧
    (TF.c6exec TF.Step.tfvarsUpdate).returncode ≠ 0 ∧
    (TF.run_terraform_apply TF.c6exec false true true none).1.success = true ∧
    TF.Step.tfApply ∈ (TF.run_terraform_apply TF.c6exec false true true none).2 := by
  decide

/-- C6 (amended): exactly the checked remote steps are fatal, each
aborting immediately with that step's captured stderr and running
nothing further.  (1) A failed libvirt install (attempted after a failed
service probe); (2) a failed `genisoimage` install (nonzero exit or no
`mkisofs` reported); (3) a failed remote directory creation; (4) a
failed terraform file copy; (5) a failed `terraform init`; (6) a failed
`terraform plan`; and (7) nonzero exits of the terraform-binary install,
dpkg repair, daemon start, group addition, daemon restart, socket check,
script upload, setup script and remote-tfvars rewrite are only logged:
with the checked steps and the apply succeeding, the workflow runs to
the end and returns success no matter what those steps returned. -/
theorem c6_fatal_vs_logged_steps (exec : TF.Step → TF.CmdOut) (log : Bool) :
    (TF.tfProbeOk exec →
      ((exec TF.Step.checkService).returncode != 0
        || !(TF.contains ("libvirtd") (exec TF.Step.checkService).stdout)) = true →
      (exec TF.Step.installLibvirt).returncode ≠ 0 →
      TF.run_terraform_apply exec log true true none =
        (⟨false, "Failed to install libvirt: " ++
            (exec TF.Step.installLibvirt).stderr, ""⟩,
         [TF.Step.checkTf, TF.Step.repairDpkg, TF.Step.checkService,
          TF.Step.installLibvirt])) ∧
    (TF.tfProbeOk exec → TF.serviceOk exec → TF.daemonOk exec →
      ((exec TF.Step.installGeniso).returncode != 0
        || !(TF.contains ("mkisofs") (exec TF.Step.installGeniso).stdout)) = true →
      TF.run_terraform_apply exec log true true none =
        (⟨false, "Failed to install genisoimage (mkisofs): " ++
            (exec TF.Step.installGeniso).stderr, ""⟩,
         [TF.Step.checkTf, TF.Step.repairDpkg, TF.Step.checkService,
          TF.Step.checkDaemon, TF.Step.addGroup, TF.Step.restartDaemon,
          TF.Step.verifySocket, TF.Step.installGeniso])) ∧
    (TF.preToCopy exec → (exec TF.Step.mkdirRemote).returncode ≠ 0 →
      TF.run_terraform_apply exec log true true none =
        (⟨false, "Failed to create remote directory: " ++
            (exec TF.Step.mkdirRemote).stderr, ""⟩,
         TF.preCopyTrace ++ [TF.Step.mkdirRemote])) ∧
    (TF.preToCopy exec → (exec TF.Step.mkdirRemote).returncode = 0 →
      (exec TF.Step.scpFiles).returncode ≠ 0 →
      TF.run_terraform_apply exec log true true none =
        (⟨false, "Failed to copy Terraform files: " ++
            (exec TF.Step.scpFiles).stderr, ""⟩,
         TF.preCopyTrace ++ [TF.Step.mkdirRemote, TF.Step.scpFiles])) ∧
    (TF.preToCopy exec → TF.copyOk exec → TF.netOk exec →
      (exec TF.Step.tfInit).returncode ≠ 0 →
      TF.run_terraform_apply exec log true true none =
        (⟨false, "terraform init failed: " ++ (exec TF.Step.tfInit).stderr, ""⟩,
         TF.preCopyTrace ++ [TF.Step.mkdirRemote, TF.Step.scpFiles,
          TF.Step.tfvarsUpdate, TF.Step.netCheck, TF.Step.tfInit])) ∧
    (TF.preToCopy exec → TF.copyOk exec → TF.netOk exec →
      (exec TF.Step.tfInit).returncode = 0 → (exec TF.Step.tfPlan).returncode ≠ 0 →
      TF.run_terraform_apply exec log true true none =
        (⟨false, "terraform plan failed: " ++ (exec TF.Step.tfPlan).stderr, ""⟩,
         TF.happyTrace)) ∧
    ((exec TF.Step.checkTf).returncode ≠ 0 → TF.serviceOk exec →
      (exec TF.Step.checkDaemon).returncode ≠ 0 → TF.genisoOk exec →
      TF.scriptQuiet exec → TF.copyOk exec → TF.netOk exec →
      TF.initPlanOk exec → (exec TF.Step.tfApply).returncode = 0 →
      TF.run_terraform_apply exec log true true none =
        (⟨true, "Terraform apply successful", (exec TF.Step.tfApply).stdout⟩,
         [TF.Step.checkTf, TF.Step.installTf, TF.Step.repairDpkg,
          TF.Step.checkService, TF.Step.checkDaemon, TF.Step.startDaemon,
          TF.Step.addGroup, TF.Step.restartDaemon, TF.Step.verifySocket,
          TF.Step.installGeniso, TF.Step.scpScript, TF.Step.execScript,
          TF.Step.mkdirRemote, TF.Step.scpFiles, TF.Step.tfvarsUpdate,
          TF.Step.netCheck, TF.Step.tfInit, TF.Step.tfPlan, TF.Step.tfApply])) := by
  refine ⟨?_, ?_, ?_, ?_, ?_, ?_, ?_⟩
  · rintro h0 hsv hil
    simp only [TF.tfProbeOk] at h0
    simp only [TF.run_terraform_apply, TF.phaseCheckTf, TF.phaseRepair,
      TF.phaseService, h0, hsv, hil]
    simp [hsv, hil]
  · rintro h0 ⟨h1, h2⟩ ⟨h3, h4⟩ hg
    simp only [TF.tfProbeOk] at h0
    simp only [TF.run_terraform_apply, TF.phaseCheckTf, TF.phaseRepair,
      TF.phaseService, TF.phaseDaemon, TF.phaseGroups, TF.phaseGeniso,
      h0, h1, h2, h3, h4, hg]
    simp [hg]
  · rintro ⟨h0, ⟨h1, h2⟩, ⟨h3, h4⟩, ⟨h5, h6⟩, h7⟩ hm
    simp only [TF.tfProbeOk] at h0
    simp only [TF.scriptQuiet] at h7
    simp only [TF.run_terraform_apply, TF.phaseCheckTf, TF.phaseRepair,
      TF.phaseService, TF.phaseDaemon, TF.phaseGroups, TF.phaseGeniso,
      TF.phaseScript, TF.phaseCopy, h0, h1, h2, h3, h4, h5, h6, h7, hm]
    simp [hm, h7, TF.preCopyTrace]
  · rintro ⟨h0, ⟨h1, h2⟩, ⟨h3, h4⟩, ⟨h5, h6⟩, h7⟩ hm hc
    simp only [TF.tfProbeOk] at h0
    simp only [TF.scriptQuiet] at h7
    simp only [TF.run_terraform_apply, TF.phaseCheckTf, TF.phaseRepair,
      TF.phaseService, TF.phaseDaemon, TF.phaseGroups, TF.phaseGeniso,
      TF.phaseScript, TF.phaseCopy, h0, h1, h2, h3, h4, h5, h6, h7, hm, hc]
    simp [hm, hc, h7, TF.preCopyTrace]
  · rintro ⟨h0, ⟨h1, h2⟩, ⟨h3, h4⟩, ⟨h5, h6⟩, h7⟩ ⟨h8, h9⟩ ⟨h10, h11⟩ hi
    simp only [TF.tfProbeOk] at h0
    simp only [TF.scriptQuiet] at h7
    simp only [TF.run_terraform_apply, TF.phaseCheckTf, TF.phaseRepair,
      TF.phaseService, TF.phaseDaemon, TF.phaseGroups, TF.phaseGeniso,
      TF.phaseScript, TF.phaseCopy, TF.phaseReef, TF.phaseTfvars,
      TF.phaseNetCheck, TF.phaseCleanup, TF.phaseInit,
      h0, h1, h2, h3, h4, h5, h6, h7, h8, h9, h10, h11, hi]
    simp [h7, hi, TF.preCopyTrace]
  · rintro ⟨h0, ⟨h1, h2⟩, ⟨h3, h4⟩, ⟨h5, h6⟩, h7⟩ ⟨h8, h9⟩ ⟨h10, h11⟩ h12 h13
    simp only [TF.tfProbeOk] at h0
    simp only [TF.scriptQuiet] at h7
    simp only [TF.run_terraform_apply, TF.phaseCheckTf, TF.phaseRepair,
      TF.phaseService, TF.phaseDaemon, TF.phaseGroups, TF.phaseGeniso,
      TF.phaseScript, TF.phaseCopy, TF.phaseReef, TF.phaseTfvars,
      TF.phaseNetCheck, TF.phaseCleanup, TF.phaseInit, TF.phasePlan,
      h0, h1, h2, h3, h4, h5, h6, h7, h8, h9, h10, h11, h12, h13]
    simp [h7, h13, TF.happyTrace]
  · rintro hc ⟨h1, h2⟩ hd ⟨h5, h6⟩ h7 ⟨h8, h9⟩ ⟨h10, h11⟩ ⟨h12, h13⟩ ha
    simp only [TF.scriptQuiet] at h7
    simp only [TF.run_terraform_apply, TF.phaseCheckTf, TF.phaseRepair,
      TF.phaseService, TF.phaseDaemon, TF.phaseGroups, TF.phaseGeniso,
      TF.phaseScript, TF.phaseCopy, TF.phaseReef, TF.phaseTfvars,
      TF.phaseNetCheck, TF.phaseCleanup, TF.phaseInit, TF.phasePlan,
      TF.phaseApply, hc, h1, h2, hd, h5, h6, h7, h8, h9, h10, h11, h12, h13, ha]
    simp [hc, hd, h7, ha]

/-- Oracle where the service probe finds no libvirt and its install
fails. -/
def TF.c6execLibvirtFail : TF.Step → TF.CmdOut
  | TF.Step.checkService => ⟨1, "", ""⟩
  | TF.Step.installLibvirt => ⟨1, "", "libvirt install failed"⟩
  | _ => ⟨0, "", ""⟩

/-- Oracle where the untroubled path reaches the `genisoimage` install,
which fails. -/
def TF.c6execGenisoFail : TF.Step → TF.CmdOut
  | TF.Step.checkService => ⟨0, "libvirtd.service enabled", ""⟩
  | TF.Step.checkDaemon => ⟨0, "active", ""⟩
  | TF.Step.installGeniso => ⟨1, "", "geniso install failed"⟩
  | _ => ⟨0, "", ""⟩

/-- Oracle where the untroubled path reaches the remote directory
creation, which fails. -/
def TF.c6execMkdirFail : TF.Step → TF.CmdOut
  | TF.Step.checkService => ⟨0, "libvirtd.service enabled", ""⟩
  | TF.Step.checkDaemon => ⟨0, "active", ""⟩
  | TF.Step.installGeniso => ⟨0, "/usr/bin/mkisofs", ""⟩
  | TF.Step.mkdirRemote => ⟨1, "", "mkdir denied"⟩
  | _ => ⟨0, "", ""⟩

/-- Oracle where the untroubled path reaches the terraform file copy,
which fails. -/
def TF.c6execCopyFail : TF.Step → TF.CmdOut
  | TF.Step.checkService => ⟨0, "libvirtd.service enabled", ""⟩
  | TF.Step.checkDaemon => ⟨0, "active", ""⟩
  | TF.Step.installGeniso => ⟨0, "/usr/bin/mkisofs", ""⟩
  | TF.Step.scpFiles => ⟨1, "", "scp denied"⟩
  | _ => ⟨0, "", ""⟩

/-- Oracle where the untroubled path reaches `terraform init`, which
fails. -/
def TF.c6execInitFail : TF.Step → TF.CmdOut
  | TF.Step.checkService => ⟨0, "libvirtd.service enabled", ""⟩
  | TF.Step.checkDaemon => ⟨0, "active", ""⟩
  | TF.Step.installGeniso => ⟨0, "/usr/bin/mkisofs", ""⟩
  | TF.Step.tfInit => ⟨1, "", "init failed"⟩
  | _ => ⟨0, "", ""⟩

/-- Oracle where the untroubled path reaches `terraform plan`, which
fails. -/
def TF.c6execPlanFail : TF.Step → TF.CmdOut
  | TF.Step.checkService => ⟨0, "libvirtd.service enabled", ""⟩
  | TF.Step.checkDaemon => ⟨0, "active", ""⟩
  | TF.Step.installGeniso => ⟨0, "/usr/bin/mkisofs", ""⟩
  | TF.Step.tfPlan => ⟨1, "", "plan failed"⟩
  | _ => ⟨0, "", ""⟩

/-- C6 (witness): on six concrete oracles, one per checked step, the run
aborts at exactly that step — libvirt install, genisoimage install,
remote directory creation, file copy, init, plan — reporting that
step's stderr, with no later step in the trace. -/
theorem c6_fatal_vs_logged_steps_witness :
    (TF.run_terraform_apply TF.c6execLibvirtFail false true true none =
      (⟨false, "Failed to install libvirt: " ++
          (TF.c6execLibvirtFail TF.Step.installLibvirt).stderr, ""⟩,
       [TF.Step.checkTf, TF.Step.repairDpkg, TF.Step.checkService,
        TF.Step.installLibvirt])) ∧
    (TF.run_terraform_apply TF.c6execGenisoFail false true true none =
      (⟨false, "Failed to install genisoimage (mkisofs): " ++
          (TF.c6execGenisoFail TF.Step.installGeniso).stderr, ""⟩,
       [TF.Step.checkTf, TF.Step.repairDpkg, TF.Step.checkService,
        TF.Step.checkDaemon, TF.Step.addGroup, TF.Step.restartDaemon,
        TF.Step.verifySocket, TF.Step.installGeniso])) ∧
    (TF.run_terraform_apply TF.c6execMkdirFail false true true none =
      (⟨false, "Failed to create remote directory: " ++
          (TF.c6execMkdirFail TF.Step.mkdirRemote).stderr, ""⟩,
       TF.preCopyTrace ++ [TF.Step.mkdirRemote])) ∧
    (TF.run_terraform_apply TF.c6execCopyFail false true true none =
      (⟨false, "Failed to copy Terraform files: " ++
          (TF.c6execCopyFail TF.Step.scpFiles).stderr, ""⟩,
       TF.preCopyTrace ++ [TF.Step.mkdirRemote, TF.Step.scpFiles])) ∧
    (TF.run_terraform_apply TF.c6execInitFail false true true none =
      (⟨false, "terraform init failed: " ++
          (TF.c6execInitFail TF.Step.tfInit).stderr, ""⟩,
       TF.preCopyTrace ++ [TF.Step.mkdirRemote, TF.Step.scpFiles,
        TF.Step.tfvarsUpdate, TF.Step.netCheck, TF.Step.tfInit])) ∧
    (TF.run_terraform_apply TF.c6execPlanFail false true true none =
      (⟨false, "terraform plan failed: " ++
          (TF.c6execPlanFail TF.Step.tfPlan).stderr, ""⟩,
       TF.happyTrace)) :=
  ⟨(c6_fatal_vs_logged_steps TF.c6execLibvirtFail false).1
      rfl (by decide) (by decide),
   (c6_fatal_vs_logged_steps TF.c6execGenisoFail false).2.1
      rfl ⟨by decide, by decide⟩ ⟨by decide, by decide⟩ (by decide),
   (c6_fatal_vs_logged_steps TF.c6execMkdirFail false).2.2.1
      (by decide) (by decide),
   (c6_fatal_vs_logged_steps TF.c6execCopyFail false).2.2.2.1
      (by decide) (by decide) (by decide),
   (c6_fatal_vs_logged_steps TF.c6execInitFail false).2.2.2.2.1
      (by decide) ⟨by decide, by decide⟩ ⟨by decide, by decide⟩ (by decide),
   (c6_fatal_vs_logged_steps TF.c6execPlanFail false).2.2.2.2.2.1
      (by decide) ⟨by decide, by decide⟩ ⟨by decide, by decide⟩
      (by decide) (by decide)⟩

/-! ## Inventory round trip of `manager/core.py`

`update_ini_inventory` builds a `configparser` structure (space
delimiter, `allow_no_value=True`) and serializes it to `hosts.ini`;
`get_inventory_hosts` reads the file back with the same parser class
and extracts each host's `ansible_user` by regular expression.  The
`configparser` library is modelled at the line level: option keys are
lowercased by the default `optionxform`, duplicate keys overwrite in
place on write and are a strict error on read, values are stripped, a
value's newline is serialized as newline-plus-tab, indented lines
continue the previous value, and `#`/`;` lines are comments.  (Blank
lines inside multi-line values and inline comments are outside the
generated-file domain and are modelled as plain skips.) -/

namespace INI

open PyStr

/-- One `agents_data` entry of `update_ini_inventory`. -/
structure Agent where
  ip : String
  user : String
  password : String
deriving DecidableEq, Repr

/-- Python `" ".join(...)`. -/
def joinSpace : List String → String
  | [] => ""
  | [v] => v
  | v :: rest => v ++ " " ++ joinSpace rest

/-- The manager's value tokens: `ansible_user` always (defaulting to
`root` when no user is given), the two password tokens when a password
is given. -/
def manager_entry_values (muser mpw : String) : List String :=
  (if muser ≠ "" then ["ansible_user=" ++ muser] else ["ansible_user=root"]) ++
  (if mpw ≠ "" then
    ["ansible_password=" ++ mpw, "ansible_become_password=" ++ mpw]
   else [])

/-- An agent's value tokens: `ansible_user` when nonempty, the two
password tokens when a password is given. -/
def agent_entry_values (a : Agent) : List String :=
  (if a.user ≠ "" then ["ansible_user=" ++ a.user] else []) ++
  (if a.password ≠ "" then
    ["ansible_password=" ++ a.password, "ansible_become_password=" ++ a.password]
   else [])

/-- `" ".join(agent_values) if agent_values else None`. -/
def agent_value (a : Agent) : Option String :=
  match agent_entry_values a with
  | [] => none
  | vs => some (joinSpace vs)

/-- The options of one section, in insertion order (a Python dict). -/
abbrev Options := List (String × Option String)

/-- The sections of a `ConfigParser`, in insertion order. -/
abbrev Sections := List (String × Options)

/-- The default `ConfigParser.optionxform`: lowercase the key. -/
def optionxform (s : String) : String := ⟨lower s.data⟩

/-- `config.set(section, key, value)` inside one section: overwrite in
place when the key exists, append otherwise. -/
def setOption (opts : Options) (k : String) (v : Option String) : Options :=
  if opts.any (fun kv => kv.1 = k) then
    opts.map (fun kv => if kv.1 = k then (k, v) else kv)
  else opts ++ [(k, v)]

/-- `config.set(section, key, value)` on the section list. -/
def setInSection (secs : Sections) (sec k : String) (v : Option String) :
    Sections :=
  secs.map (fun s => if s.1 = sec then (s.1, setOption s.2 k v) else s)

/-- The section structure built by `update_ini_inventory`:
`[security_server]` with the manager entry, then `[agents]` with one
entry per agent. -/
def update_ini_sections (mip muser mpw : String) (agents : List Agent) :
    Sections :=
  let s1 := setInSection [("security_server", [])] ("security_server")
    (optionxform mip) (some (joinSpace (manager_entry_values muser mpw)))
  let s2 := s1 ++ [("agents", [])]
  agents.foldl
    (fun s a => setInSection s ("agents") (optionxform a.ip) (agent_value a)) s2

/-- `str(value).replace('\n', '\n\t')` performed by `ConfigParser.write`
on each value. -/
def replaceNlTab : Str → Str
  | [] => []
  | c :: rest =>
    if c = '\n' then '\n' :: '\t' :: replaceNlTab rest else c :: replaceNlTab rest

/-- One option line as written with `space_around_delimiters=False`:
`key value`, or the bare key for a `None` value (`allow_no_value`). -/
def writeOption (k : String) (v : Option String) : Str :=
  match v with
  | none => k.data
  | some v => k.data ++ (' ' :: replaceNlTab v.data)

/-- One serialized section: header line, option lines, blank line. -/
def writeSection (sec : String × Options) : Str :=
  ('[' :: sec.1.data ++ [']', '\n']) ++
    sec.2.foldr (fun kv acc => writeOption kv.1 kv.2 ++ ('\n' :: acc)) ['\n']

/-- `ConfigParser.write` over the whole structure. -/
def writeIni (secs : Sections) : Str := (secs.map writeSection).join

/-- Split the file text into lines at newlines. -/
def splitLines : Str → List Str
  | [] => [[]]
  | c :: rest =>
    if c = '\n' then [] :: splitLines rest
    else
      match splitLines rest with
      | [] => [[c]]
      | p :: ps => (c :: p) :: ps

/-- Reader state: sections so far, current section, last option read. -/
structure PSt where
  secs : Sections
  cur : Option String
  lastKey : Option String
deriving DecidableEq, Repr

/-- Append a continuation fragment to option `k` (error on a valueless
option or a missing key). -/
def updOpt : Options → String → String → Option Options
  | [], _, _ => none
  | kv :: rest, k, frag =>
    if kv.1 = k then
      match kv.2 with
      | some v => some ((k, some (v ++ "\n" ++ frag)) :: rest)
      | none => none
    else (updOpt rest k frag).map (kv :: ·)

/-- Append a continuation fragment inside section `sec`. -/
def appendCont (secs : Sections) (sec k : String) (frag : String) :
    Option Sections :=
  match secs with
  | [] => none
  | s :: rest =>
    if s.1 = sec then (updOpt s.2 k frag).map (fun o2 => (s.1, o2) :: rest)
    else (appendCont rest sec k frag).map (s :: ·)

/-- Strict insertion of a freshly read option (duplicate keys raise
`DuplicateOptionError`). -/
def addOption (secs : Sections) (sec k : String) (v : Option String) :
    Option Sections :=
  match secs with
  | [] => none
  | s :: rest =>
    if s.1 = sec then
      if s.2.any (fun kv => kv.1 = k) then none
      else some ((s.1, s.2 ++ [(k, v)]) :: rest)
    else (addOption rest sec k v).map (s :: ·)

/-- The section-header pattern `\[([^]]+)\]`, matched at the start of
the stripped line (trailing text is ignored, as by `SECTCRE.match`). -/
def parseHeader (l : Str) : Option String :=
  match l with
  | '[' :: rest =>
    let name := rest.takeWhile (fun c => c != ']')
    if name ≠ [] ∧ name.length < rest.length then some ⟨name⟩ else none
  | _ => none

/-- Split an option line at the first delimiter (the space character);
no delimiter means a valueless option. -/
def splitFirstSpace : Str → Str × Option Str
  | [] => ([], none)
  | c :: rest =>
    if c = ' ' then ([], some rest)
    else
      let r := splitFirstSpace rest
      (c :: r.1, r.2)

/-- Read one option line inside the current section (an option before
any header raises `MissingSectionHeaderError`). -/
def parseOptionLine (st : PSt) (stripped : Str) : Option PSt :=
  match st.cur with
  | none => none
  | some sec =>
    let sp := splitFirstSpace stripped
    let k := optionxform ⟨sp.1⟩
    let v := sp.2.map (fun w => (⟨strip w⟩ : String))
    (addOption st.secs sec k v).map (fun s2 => ⟨s2, some sec, some k⟩)

/-- Read one raw line: blank and comment lines are skipped, an indented
line continues the last option, a header opens a (fresh) section, and
anything else is an option line of the current section. -/
def readLine (st : PSt) (l : Str) : Option PSt :=
  let stripped := strip l
  if stripped = [] then some { st with lastKey := none }
  else if pyWs (l.headD 'x') then
    match st.cur, st.lastKey with
    | some sec, some k =>
      (appendCont st.secs sec k ⟨stripped⟩).map (fun s2 => { st with secs := s2 })
    | _, _ => none
  else if stripped.head? = some '#' || stripped.head? = some ';' then
    some { st with lastKey := none }
  else if stripped.head? = some '[' then
    match parseHeader stripped with
    | some name =>
      if st.secs.any (fun s => s.1 = name) then none
      else some ⟨st.secs ++ [(name, [])], some name, none⟩
    | none => parseOptionLine st stripped
  else parseOptionLine st stripped

/-- `config.read(...)` over the file text. -/
def parseIni (text : Str) : Option Sections :=
  ((splitLines text).foldlM readLine ⟨[], none, none⟩).map (fun st => st.secs)

/-- `re.search(r'ansible_user=(\S+)', v)`: the first position where the
literal matches and at least one non-whitespace character follows. -/
def findAnsibleUser : Str → Option Str
  | [] => none
  | c :: rest =>
    if ("ansible_user=".data).isPrefixOf (c :: rest) then
      let cap := ((c :: rest).drop 13).takeWhile (fun ch => !(pyWs ch))
      if cap.isEmpty then findAnsibleUser rest else some cap
    else findAnsibleUser rest

/-- One entry returned by `get_inventory_hosts`. -/
structure Host where
  ip : String
  user : String
deriving DecidableEq, Repr

/-- The user extracted from one stored value: `root` on a falsy value
or when the `ansible_user` pattern does not match. -/
def userOfValue (v : String) : String :=
  if v ≠ "" then
    match findAnsibleUser v.data with
    | some u => ⟨u⟩
    | none => "root"
  else "root"

/-- `parse_section` of `get_inventory_hosts`: every key of the section
becomes a host whose user is the extracted `ansible_user`, defaulting
to `root` on a falsy (`None` or empty) value or no match. -/
def hostsOfSection (secs : Sections) (name : String) : List Host :=
  match secs.find? (fun s => s.1 = name) with
  | none => []
  | some s =>
    s.2.map (fun kv =>
      match kv.2 with
      | some v => ⟨kv.1, userOfValue v⟩
      | none => ⟨kv.1, "root"⟩)

/-- `get_inventory_hosts` on the file text: `security_server` hosts then
`agents` hosts; a parse error is caught and yields `[]`. -/
def get_inventory_hosts (text : Str) : List Host :=
  match parseIni text with
  | none => []
  | some secs =>
    hostsOfSection secs ("security_server") ++ hostsOfSection secs ("agents")

/-- `update_ini_inventory` followed by `get_inventory_hosts` on the
written file. -/
def inventory_roundtrip (mip muser mpw : String) (agents : List Agent) :
    List Host :=
  get_inventory_hosts (writeIni (update_ini_sections mip muser mpw agents))

end INI

set_option maxRecDepth 100000 in
/-- C10 (counterexample): two agents sharing the IP `2.2.2.2` collapse
to a single `hosts.ini` entry (the `configparser` dict overwrites in
place), so the round trip returns two hosts, not the manager followed by
both agents in order. -/
theorem c10_duplicate_agent_ips_collapse :
    INI.inventory_roundtrip ("1.1.1.1") ("admin") ("pw")
        [⟨"2.2.2.2", "u1", "p1"⟩, ⟨"2.2.2.2", "u2", "p2"⟩] =
      [⟨"1.1.1.1", "admin"⟩, ⟨"2.2.2.2", "u2"⟩] ∧
    INI.inventory_roundtrip ("1.1.1.1") ("admin") ("pw")
        [⟨"2.2.2.2", "u1", "p1"⟩, ⟨"2.2.2.2", "u2", "p2"⟩] ≠
      [⟨"1.1.1.1", "admin"⟩, ⟨"2.2.2.2", "u1"⟩, ⟨"2.2.2.2", "u2"⟩] := by
  constructor <;> decide

namespace PyStr

/-- `lstrip` keeps a string whose head is not whitespace. -/
theorem lstrip_cons_not_ws {c : Char} {s : Str} (h : pyWs c = false) :
    lstrip (c :: s) = c :: s := by
  simp [lstrip, List.dropWhile, h]

/-- `rstrip` commutes with a non-whitespace head. -/
theorem rstrip_cons_not_ws {c : Char} (s : Str) (h : pyWs c = false) :
    rstrip (c :: s) = c :: rstrip s := by
  cases hr : rstrip s with
  | nil => simp [rstrip, hr, h]
  | cons x xs => simp [rstrip, hr, h]

/-- `rstrip` passes over an all-non-whitespace prefix. -/
theorem rstrip_append_not_ws {xs : Str} (ys : Str)
    (h : ∀ c ∈ xs, pyWs c = false) :
    rstrip (xs ++ ys) = xs ++ rstrip ys := by
  induction xs with
  | nil => simp
  | cons c rest ih =>
    rw [List.cons_append, rstrip_cons_not_ws _ (h c (by simp)),
      ih (fun d hd => h d (by simp [hd]))]
    simp

/-- `rstrip` keeps an all-non-whitespace string. -/
theorem rstrip_all_not_ws {xs : Str} (h : ∀ c ∈ xs, pyWs c = false) :
    rstrip xs = xs := by
  have := @rstrip_append_not_ws xs [] h
  simpa [rstrip] using this

/-- `rstrip` is idempotent. -/
theorem rstrip_idem (s : Str) : rstrip (rstrip s) = rstrip s := by
  induction s with
  | nil => rfl
  | cons c rest ih =>
    cases hr : rstrip rest with
    | nil =>
      by_cases h2 : pyWs c = true
      · simp [rstrip, hr, h2]
      · have h2' : pyWs c = false := by simpa using h2
        rw [rstrip_cons_not_ws _ h2', hr]
        simp [rstrip, h2']
    | cons x xs =>
      have hc : rstrip (c :: rest) = c :: rstrip rest := by
        simp [rstrip, hr]
      rw [hc]
      have hne2 : rstrip (rstrip rest) ≠ [] := by
        rw [ih, hr]
        simp
      cases hr2 : rstrip (rstrip rest) with
      | nil => exact absurd hr2 hne2
      | cons y ys =>
        have hc2 : rstrip (c :: rstrip rest) = c :: rstrip (rstrip rest) := by
          simp [rstrip, hr2]
        rw [hc2, ih]

/-- `rstrip` removes a suffix: the result is a prefix of the input. -/
theorem rstrip_is_prefix (s : Str) : ∃ t, s = rstrip s ++ t := by
  induction s with
  | nil => exact ⟨[], rfl⟩
  | cons c rest ih =>
    rcases ih with ⟨t, ht⟩
    cases hr : rstrip rest with
    | nil =>
      by_cases h2 : pyWs c = true
      · exact ⟨c :: rest, by simp [rstrip, hr, h2]⟩
      · have h2' : pyWs c = false := by simpa using h2
        refine ⟨t, ?_⟩
        rw [rstrip_cons_not_ws _ h2', List.cons_append, ← ht]
    | cons x xs =>
      refine ⟨t, ?_⟩
      have hc : rstrip (c :: rest) = c :: rstrip rest := by
        simp [rstrip, hr]
      rw [hc, List.cons_append, ← ht]

/-- A prefix match survives extension on the right. -/
theorem isPrefixOf_extend {pat t : Str} (r : Str)
    (h : pat.isPrefixOf t = true) : pat.isPrefixOf (t ++ r) = true := by
  induction pat generalizing t with
  | nil => simp [List.isPrefixOf]
  | cons a as ih =>
    cases t with
    | nil => simp [List.isPrefixOf] at h
    | cons b bs =>
      simp only [List.isPrefixOf, Bool.and_eq_true, beq_iff_eq] at h
      simp only [List.cons_append, List.isPrefixOf, Bool.and_eq_true, beq_iff_eq]
      exact ⟨h.1, ih h.2⟩

/-- The empty pattern occurs in every string. -/
theorem substr_nil_left (s : Str) : substr [] s = true := by
  cases s <;> simp [substr, List.isPrefixOf, List.isEmpty]

/-- A substring occurrence survives extension on the right. -/
theorem substr_extend {pat t : Str} (r : Str) (h : substr pat t = true) :
    substr pat (t ++ r) = true := by
  induction t with
  | nil =>
    have : pat = [] := by
      cases pat with
      | nil => rfl
      | cons a as => simp [substr, List.isEmpty] at h
    subst this
    exact substr_nil_left r
  | cons c rest ih =>
    simp only [substr, Bool.or_eq_true] at h
    rcases h with h | h
    · simp only [List.cons_append, substr, Bool.or_eq_true]
      exact Or.inl (isPrefixOf_extend r h)
    · simp only [List.cons_append, substr, Bool.or_eq_true]
      exact Or.inr (ih h)

/-- No occurrence in a string means no occurrence in any prefix of it. -/
theorem substr_of_append_eq_false {pat t r : Str}
    (h : substr pat (t ++ r) = false) : substr pat t = false := by
  by_cases h1 : substr pat t = true
  · rw [substr_extend r h1] at h
    exact absurd h (by simp)
  · simpa using h1

/-- The pattern is a prefix of itself followed by anything. -/
theorem isPrefixOf_append_self (pat t : Str) :
    pat.isPrefixOf (pat ++ t) = true := by
  induction pat with
  | nil => simp [List.isPrefixOf]
  | cons a as ih => simp [List.isPrefixOf, ih]

/-- `takeWhile` of non-whitespace over a non-whitespace block followed
by nothing or a space captures exactly the block. -/
theorem takeWhile_not_ws_append {u : Str} (rest : Str)
    (hu : ∀ c ∈ u, pyWs c = false)
    (hrest : rest = [] ∨ ∃ r', rest = ' ' :: r') :
    (u ++ rest).takeWhile (fun ch => !(pyWs ch)) = u := by
  induction u with
  | nil =>
    rcases hrest with rfl | ⟨r', rfl⟩
    · rfl
    · simp [List.takeWhile, pyWs]
  | cons c rest' ih =>
    have hc : pyWs c = false := hu c (by simp)
    rw [List.cons_append, List.takeWhile_cons]
    simp only [hc]
    rw [ih (fun d hd => hu d (by simp [hd]))]
    simp
end PyStr

namespace INI

open PyStr

/-- When the pattern matches at the front and at least one
non-whitespace character follows, the search returns that capture. -/
theorem findAU_prefix_match (v : Str)
    (h : ("ansible_user=".data).isPrefixOf v = true)
    (hcap : (v.drop 13).takeWhile (fun ch => !(pyWs ch)) ≠ []) :
    findAnsibleUser v = some ((v.drop 13).takeWhile (fun ch => !(pyWs ch))) := by
  cases v with
  | nil => simp [List.isPrefixOf] at h
  | cons c rest =>
    rw [findAnsibleUser]
    rw [if_pos h]
    simp only [List.isEmpty_iff]
    rw [if_neg hcap]

/-- Without an occurrence of `ansible_user=` the search fails. -/
theorem findAU_none (v : Str)
    (h : substr ("ansible_user=".data) v = false) : findAnsibleUser v = none := by
  induction v with
  | nil => rfl
  | cons c rest ih =>
    rw [substr] at h
    rcases Bool.or_eq_false_iff.mp h with ⟨h1, h2⟩
    rw [findAnsibleUser, if_neg (by simp [h1])]
    exact ih h2

/-- Extraction through the value strip: a value of the shape
`ansible_user=<u><rest>` with a nonempty whitespace-free `u` and `rest`
either empty or a space followed by material that survives `rstrip`
yields exactly `u`. -/
theorem user_extract (u rest : Str) (hu : u ≠ [])
    (huw : ∀ c ∈ u, pyWs c = false)
    (hrest : rest = [] ∨ ∃ r', rest = ' ' :: r' ∧ rstrip r' ≠ []) :
    findAnsibleUser (rstrip ("ansible_user=".data ++ (u ++ rest))) = some u := by
  have hpw : ∀ c ∈ "ansible_user=".data, pyWs c = false := by decide
  rw [rstrip_append_not_ws _ hpw, rstrip_append_not_ws _ huw]
  have hR : rstrip rest = [] ∨ ∃ r'', rstrip rest = ' ' :: r'' := by
    rcases hrest with rfl | ⟨r', rfl, hne⟩
    · left; rfl
    · right
      refine ⟨rstrip r', ?_⟩
      simp only [rstrip]
      simp [hne]
  have hdrop : (("ansible_user=".data) ++ (u ++ rstrip rest)).drop 13 =
      u ++ rstrip rest := by
    have h13 : ("ansible_user=".data).length = 13 := rfl
    rw [← h13, List.drop_left]
  have hcap : ((("ansible_user=".data) ++ (u ++ rstrip rest)).drop 13).takeWhile
      (fun ch => !(pyWs ch)) = u := by
    rw [hdrop]
    exact takeWhile_not_ws_append _ huw hR
  rw [findAU_prefix_match _ (isPrefixOf_append_self _ _)
    (by rw [hcap]; exact hu), hcap]

end INI

namespace INI

open PyStr

/-- `rstrip` keeps a head whose tail does not strip to nothing. -/
theorem rstrip_cons_of_ne {rest : Str} (c : Char)
    (h : PyStr.rstrip rest ≠ []) :
    PyStr.rstrip (c :: rest) = c :: PyStr.rstrip rest := by
  cases hr : PyStr.rstrip rest with
  | nil => exact absurd hr h
  | cons x xs => simp [PyStr.rstrip, hr]

/-- Splitting at newlines peels off a newline-free first line. -/
theorem splitLines_append_nl (xs ys : Str) (h : ∀ c ∈ xs, c ≠ '\n') :
    splitLines (xs ++ '\n' :: ys) = xs :: splitLines ys := by
  induction xs with
  | nil => simp [splitLines]
  | cons c rest ih =>
    have hc : c ≠ '\n' := h c (by simp)
    rw [List.cons_append]
    simp only [splitLines]
    rw [if_neg hc, ih (fun d hd => h d (by simp [hd]))]

/-- Splitting a whitespace-free key off the first delimiter. -/
theorem splitFirstSpace_append (k w : Str) (hk : ∀ c ∈ k, pyWs c = false) :
    splitFirstSpace (k ++ ' ' :: w) = (k, some w) := by
  induction k with
  | nil => simp [splitFirstSpace]
  | cons c rest ih =>
    have hc : c ≠ ' ' := by
      intro e
      have := hk c (by simp)
      rw [e] at this
      simp [pyWs] at this
    rw [List.cons_append]
    simp only [splitFirstSpace]
    rw [if_neg hc, ih (fun d hd => hk d (by simp [hd]))]

/-- A whitespace-free line has no delimiter. -/
theorem splitFirstSpace_no_space (k : Str) (hk : ∀ c ∈ k, pyWs c = false) :
    splitFirstSpace k = (k, none) := by
  induction k with
  | nil => rfl
  | cons c rest ih =>
    have hc : c ≠ ' ' := by
      intro e
      have := hk c (by simp)
      rw [e] at this
      simp [pyWs] at this
    simp only [splitFirstSpace]
    rw [if_neg hc, ih (fun d hd => hk d (by simp [hd]))]

/-- A blank line only resets the last-option marker. -/
theorem readLine_blank (st : PSt) :
    readLine st [] = some { st with lastKey := none } := rfl

/-- Reading a `key value` option line with a well-formed key and a value
whose head is not whitespace: the stripped value is stored under the
lowercased key. -/
theorem readLine_option (st : PSt) (sec : String) (hcur : st.cur = some sec)
    (c₀ : Char) (k' : Str) (hkw : ∀ c ∈ (c₀ :: k'), pyWs c = false)
    (h1 : c₀ ≠ '[') (h2 : c₀ ≠ '#') (h3 : c₀ ≠ ';')
    (d₀ : Char) (v' : Str) (hd : pyWs d₀ = false) :
    readLine st ((c₀ :: k') ++ ' ' :: (d₀ :: v')) =
      (addOption st.secs sec (optionxform ⟨c₀ :: k'⟩)
          (some ⟨rstrip (d₀ :: v')⟩)).map
        (fun s2 => ⟨s2, some sec, some (optionxform ⟨c₀ :: k'⟩)⟩) := by
  have hc₀ : pyWs c₀ = false := hkw c₀ (by simp)
  have hrst_v : rstrip (d₀ :: v') = d₀ :: rstrip v' := rstrip_cons_not_ws _ hd
  have hne : rstrip (d₀ :: v') ≠ [] := by
    rw [hrst_v]
    simp
  have hrstrip : rstrip ((c₀ :: k') ++ ' ' :: (d₀ :: v')) =
      (c₀ :: k') ++ ' ' :: rstrip (d₀ :: v') := by
    rw [rstrip_append_not_ws _ hkw, rstrip_cons_of_ne ' ' hne]
  have hstrip : strip ((c₀ :: k') ++ ' ' :: (d₀ :: v')) =
      (c₀ :: k') ++ ' ' :: rstrip (d₀ :: v') := by
    have hlst : lstrip ((c₀ :: k') ++ ' ' :: (d₀ :: v')) =
        (c₀ :: k') ++ ' ' :: (d₀ :: v') := by
      rw [List.cons_append]
      exact lstrip_cons_not_ws hc₀
    unfold strip
    rw [hlst, hrstrip]
  have hsv : strip (rstrip (d₀ :: v')) = rstrip (d₀ :: v') := by
    rw [hrst_v]
    unfold strip
    rw [lstrip_cons_not_ws hd, ← hrst_v, rstrip_idem]
  have hsplit : splitFirstSpace ((c₀ :: k') ++ ' ' :: rstrip (d₀ :: v')) =
      (c₀ :: k', some (rstrip (d₀ :: v'))) :=
    splitFirstSpace_append _ _ hkw
  rw [readLine]
  simp only [hstrip]
  rw [if_neg (by simp)]
  rw [if_neg (by simp [hc₀])]
  rw [if_neg (by simp [h2, h3])]
  rw [if_neg (by simp [h1])]
  simp only [parseOptionLine, hcur, hsplit, Option.map_some', hsv]

/-- Reading a bare-key option line: a `None` value is stored under the
lowercased key. -/
theorem readLine_bare (st : PSt) (sec : String) (hcur : st.cur = some sec)
    (c₀ : Char) (k' : Str) (hkw : ∀ c ∈ (c₀ :: k'), pyWs c = false)
    (h1 : c₀ ≠ '[') (h2 : c₀ ≠ '#') (h3 : c₀ ≠ ';') :
    readLine st (c₀ :: k') =
      (addOption st.secs sec (optionxform ⟨c₀ :: k'⟩) none).map
        (fun s2 => ⟨s2, some sec, some (optionxform ⟨c₀ :: k'⟩)⟩) := by
  have hc₀ : pyWs c₀ = false := hkw c₀ (by simp)
  have hstrip : strip (c₀ :: k') = c₀ :: k' := by
    unfold strip
    rw [lstrip_cons_not_ws hc₀, rstrip_all_not_ws hkw]
  have hsplit : splitFirstSpace (c₀ :: k') = (c₀ :: k', none) :=
    splitFirstSpace_no_space _ hkw
  rw [readLine]
  simp only [hstrip]
  rw [if_neg (by simp)]
  rw [if_neg (by simp [hc₀])]
  rw [if_neg (by simp [h2, h3])]
  rw [if_neg (by simp [h1])]
  simp [parseOptionLine, hcur, hsplit]

/-- Reading the `[agents]` header when no `agents` section exists yet. -/
theorem readLine_header_agents (st : PSt)
    (h : st.secs.any (fun s => s.1 = "agents") = false) :
    readLine st ("[agents]".data) =
      some ⟨st.secs ++ [("agents", [])], some "agents", none⟩ := by
  have hs : strip ("[agents]".data) = "[agents]".data := by decide
  have hph : parseHeader ("[agents]".data) = some ("agents") := by decide
  rw [readLine]
  simp only [hs]
  rw [if_neg (by decide)]
  rw [if_neg (by decide)]
  rw [if_neg (by decide)]
  rw [if_pos (by decide)]
  rw [hph]
  simp [h]

end INI

namespace INI

open PyStr

/-- Well-formed option key: nonempty, whitespace-free, not opening a
header or comment, and fixed by the lowercasing `optionxform`. -/
def wfKey (s : String) : Prop :=
  s.data ≠ [] ∧ (∀ c ∈ s.data, pyWs c = false) ∧
  s.data.head? ≠ some '[' ∧ s.data.head? ≠ some '#' ∧
  s.data.head? ≠ some ';' ∧ optionxform s = s

/-- Well-formed agent entry: well-formed IP key, whitespace-free user,
newline-free password, and, when no user token is written, a stored
value that does not smuggle an `ansible_user=` fragment. -/
def wfAgent (a : Agent) : Prop :=
  wfKey a.ip ∧ (∀ c ∈ a.user.data, pyWs c = false) ∧
  (∀ c ∈ a.password.data, c ≠ '\n' ∧ c ≠ '\r') ∧
  (a.user = "" → ∀ v, agent_value a = some v →
    substr ("ansible_user=".data) v.data = false)

/-- Setting a fresh key appends it. -/
theorem setOption_fresh (opts : Options) (k : String) (v : Option String)
    (h : opts.any (fun kv => kv.1 = k) = false) :
    setOption opts k v = opts ++ [(k, v)] := by
  unfold setOption
  rw [if_neg (by simp [h])]

/-- `config.set` on the two-section structure targets the `agents`
section only. -/
theorem setInSection_agents (mO acc : Options) (k : String) (v : Option String) :
    setInSection [("security_server", mO), ("agents", acc)] ("agents") k v =
      [("security_server", mO), ("agents", setOption acc k v)] := by
  simp only [setInSection, List.map_cons, List.map_nil]
  rw [if_neg (by decide)]
  simp

/-- The built section structure, explicitly: one manager entry, then the
agents in order (fresh, pairwise-distinct keys append). -/
theorem foldl_agents_eq (as : List Agent) (mO : Options) :
    ∀ (acc : Options),
    (∀ a ∈ as, optionxform a.ip = a.ip) →
    (∀ a ∈ as, acc.any (fun kv => kv.1 = a.ip) = false) →
    (as.map (fun a => a.ip)).Nodup →
    as.foldl
        (fun s a => setInSection s ("agents") (optionxform a.ip) (agent_value a))
        [("security_server", mO), ("agents", acc)] =
      [("security_server", mO),
       ("agents", acc ++ as.map (fun a => (a.ip, agent_value a)))] := by
  induction as with
  | nil => intro acc _ _ _; simp
  | cons a rest ih =>
    intro acc hx hfresh hnd
    have ha := hx a (by simp)
    have hf := hfresh a (by simp)
    rw [List.foldl_cons, ha, setInSection_agents, setOption_fresh _ _ _ hf]
    simp only [List.map_cons, List.nodup_cons] at hnd
    have hstep := ih (acc ++ [(a.ip, agent_value a)])
      (fun b hb => hx b (by simp [hb]))
      (fun b hb => by
        have h1 := hfresh b (by simp [hb])
        have h2 : b.ip ≠ a.ip := by
          intro he
          exact hnd.1 (he ▸ List.mem_map_of_mem (fun x => x.ip) hb)
        simp only [List.any_append, h1, Bool.false_or, List.any_cons,
          List.any_nil, Bool.or_false, decide_eq_false_iff_not]
        exact Ne.symm h2)
      hnd.2
    rw [hstep]
    simp [List.append_assoc]

/-- `update_ini_inventory`'s section structure, explicitly. -/
theorem update_ini_sections_eq (mip muser mpw : String) (agents : List Agent)
    (hm : optionxform mip = mip)
    (hag : ∀ a ∈ agents, optionxform a.ip = a.ip)
    (hnd : (agents.map (fun a => a.ip)).Nodup) :
    update_ini_sections mip muser mpw agents =
      [("security_server",
         [(mip, some (joinSpace (manager_entry_values muser mpw)))]),
       ("agents", agents.map (fun a => (a.ip, agent_value a)))] := by
  unfold update_ini_sections
  rw [hm]
  have h1 : setInSection [("security_server", [])] ("security_server") mip
      (some (joinSpace (manager_entry_values muser mpw))) =
      [("security_server",
        [(mip, some (joinSpace (manager_entry_values muser mpw)))])] := by
    simp [setInSection, setOption]
  rw [h1]
  exact foldl_agents_eq agents _ [] hag (by simp) hnd

/-- Strict read insertion into the lone `security_server` section. -/
theorem addOption_first (n : String) (o : Options) (k : String)
    (v : Option String) (h : o.any (fun kv => kv.1 = k) = false) :
    addOption [(n, o)] n k v = some [(n, o ++ [(k, v)])] := by
  simp only [addOption]
  simp [h]

/-- Strict read insertion into the `agents` section of the two-section
structure. -/
theorem addOption_agents (mO acc : Options) (k : String) (v : Option String)
    (h : acc.any (fun kv => kv.1 = k) = false) :
    addOption [("security_server", mO), ("agents", acc)] ("agents") k v =
      some [("security_server", mO), ("agents", acc ++ [(k, v)])] := by
  simp only [addOption]
  rw [if_neg (by decide)]
  simp [h]

end INI

namespace INI

open PyStr

/-- The two password tokens, when a password is present. -/
def pwTokens (pw : String) : List String :=
  if pw ≠ "" then
    ["ansible_password=" ++ pw, "ansible_become_password=" ++ pw]
  else []

/-- The characters following the user token in a joined value. -/
def pwRest (pw : String) : Str :=
  if pw = "" then []
  else
    ' ' :: ("ansible_password=".data ++ (pw.data ++
      (' ' :: ("ansible_become_password=".data ++ pw.data))))

/-- A value never replaces anything when it contains no newline. -/
theorem replaceNlTab_eq_self (s : Str) (h : ∀ c ∈ s, c ≠ '\n') :
    replaceNlTab s = s := by
  induction s with
  | nil => rfl
  | cons c rest ih =>
    simp only [replaceNlTab]
    rw [if_neg (h c (by simp)), ih (fun d hd => h d (by simp [hd]))]

/-- A whitespace-free character is not a newline. -/
theorem not_nl_of_not_ws {c : Char} (h : pyWs c = false) : c ≠ '\n' := by
  intro e
  subst e
  simp [pyWs] at h

/-- The manager token list always starts with a user token. -/
theorem manager_entry_values_eq (muser mpw : String) :
    manager_entry_values muser mpw =
      ("ansible_user=" ++ (if muser = "" then ("root" : String) else muser)) ::
        pwTokens mpw := by
  by_cases hu : muser = ""
  · have hroot : ("ansible_user=root" : String) = "ansible_user=" ++ ("root" : String) := by
      decide
    simp [manager_entry_values, pwTokens, hu, hroot]
  · simp [manager_entry_values, pwTokens, hu]

/-- The character stream of a joined user-headed value. -/
theorem joined_user_data (u pw : String) :
    (joinSpace (("ansible_user=" ++ u) :: pwTokens pw)).data =
      "ansible_user=".data ++ (u.data ++ pwRest pw) := by
  have hsp : (" " : String).data = [' '] := rfl
  by_cases hp : pw = ""
  · simp [joinSpace, pwTokens, pwRest, hp, String.data_append]
  · simp [joinSpace, pwTokens, pwRest, hp, String.data_append, hsp,
      List.append_assoc]

/-- The trailing part of a joined value is empty or a space followed by
material surviving `rstrip`. -/
theorem pwRest_shape (pw : String) :
    pwRest pw = [] ∨ ∃ r', pwRest pw = ' ' :: r' ∧ rstrip r' ≠ [] := by
  by_cases hp : pw = ""
  · left
    simp [pwRest, hp]
  · right
    have hpa : "ansible_password=".data = 'a' :: ("nsible_password=".data) := rfl
    refine ⟨"ansible_password=".data ++ (pw.data ++
      (' ' :: ("ansible_become_password=".data ++ pw.data))), ?_, ?_⟩
    · simp [pwRest, hp]
    · rw [hpa, List.cons_append,
        rstrip_cons_not_ws _ (by simp [pyWs])]
      simp

/-- The trailing password part contains no newline. -/
theorem pwRest_no_nl (pw : String)
    (hp : ∀ c ∈ pw.data, c ≠ '\n' ∧ c ≠ '\r') :
    ∀ c ∈ pwRest pw, c ≠ '\n' := by
  have hl1 : ∀ c ∈ "ansible_password=".data, c ≠ '\n' := by decide
  have hl2 : ∀ c ∈ "ansible_become_password=".data, c ≠ '\n' := by decide
  intro c hc
  by_cases hpe : pw = ""
  · simp [pwRest, hpe] at hc
  · rw [pwRest, if_neg hpe] at hc
    rcases List.mem_cons.mp hc with rfl | hc
    · decide
    rcases List.mem_append.mp hc with hc | hc
    · exact hl1 c hc
    rcases List.mem_append.mp hc with hc | hc
    · exact (hp c hc).1
    rcases List.mem_cons.mp hc with rfl | hc
    · decide
    rcases List.mem_append.mp hc with hc | hc
    · exact hl2 c hc
    · exact (hp c hc).1

/-- A joined user-headed value contains no newline. -/
theorem joined_user_no_nl (u pw : String)
    (hu : ∀ c ∈ u.data, pyWs c = false)
    (hp : ∀ c ∈ pw.data, c ≠ '\n' ∧ c ≠ '\r') :
    ∀ c ∈ (joinSpace (("ansible_user=" ++ u) :: pwTokens pw)).data, c ≠ '\n' := by
  have hl0 : ∀ c ∈ "ansible_user=".data, c ≠ '\n' := by decide
  intro c hc
  rw [joined_user_data] at hc
  rcases List.mem_append.mp hc with hc | hc
  · exact hl0 c hc
  rcases List.mem_append.mp hc with hc | hc
  · exact not_nl_of_not_ws (hu c hc)
  · exact pwRest_no_nl pw hp c hc

/-- `agent_value` for an agent with a user. -/
theorem agent_value_eq_user (a : Agent) (hu : a.user ≠ "") :
    agent_value a =
      some (joinSpace (("ansible_user=" ++ a.user) :: pwTokens a.password)) := by
  unfold agent_value agent_entry_values
  by_cases hp : a.password = "" <;> simp [hu, hp, pwTokens]

/-- `agent_value` for an agent with only a password. -/
theorem agent_value_eq_pwonly (a : Agent) (hu : a.user = "")
    (hp : a.password ≠ "") :
    agent_value a = some (joinSpace (pwTokens a.password)) := by
  unfold agent_value agent_entry_values
  simp [hu, hp, pwTokens]

/-- `agent_value` for an agent with neither user nor password. -/
theorem agent_value_eq_none (a : Agent) (hu : a.user = "")
    (hp : a.password = "") : agent_value a = none := by
  unfold agent_value agent_entry_values
  simp [hu, hp]

/-- A password-only value starts with `a` and contains no newline. -/
theorem pwonly_data (pw : String) (hp : pw ≠ "") :
    (joinSpace (pwTokens pw)).data =
      "ansible_password=".data ++ (pw.data ++
        (' ' :: ("ansible_become_password=".data ++ pw.data))) := by
  have hsp : (" " : String).data = [' '] := rfl
  simp [joinSpace, pwTokens, hp, String.data_append, hsp, List.append_assoc]

/-- A password-only value contains no newline. -/
theorem pwonly_no_nl (pw : String)
    (hp : ∀ c ∈ pw.data, c ≠ '\n' ∧ c ≠ '\r') (hpe : pw ≠ "") :
    ∀ c ∈ (joinSpace (pwTokens pw)).data, c ≠ '\n' := by
  have hl1 : ∀ c ∈ "ansible_password=".data, c ≠ '\n' := by decide
  have hl2 : ∀ c ∈ "ansible_become_password=".data, c ≠ '\n' := by decide
  intro c hc
  rw [pwonly_data pw hpe] at hc
  rcases List.mem_append.mp hc with hc | hc
  · exact hl1 c hc
  rcases List.mem_append.mp hc with hc | hc
  · exact (hp c hc).1
  rcases List.mem_cons.mp hc with rfl | hc
  · decide
  rcases List.mem_append.mp hc with hc | hc
  · exact hl2 c hc
  · exact (hp c hc).1

/-- `userOfValue` of a string whose characters match the pattern. -/
theorem userOfValue_of_find (v : String) (u : Str)
    (h : findAnsibleUser v.data = some u) : userOfValue v = ⟨u⟩ := by
  have hne : v ≠ "" := by
    intro he
    rw [he] at h
    have hz : ("" : String).data = [] := rfl
    rw [hz] at h
    simp [findAnsibleUser] at h
  unfold userOfValue
  rw [if_pos hne, h]

/-- `userOfValue` of a string whose characters never match the
pattern. -/
theorem userOfValue_of_find_none (v : String)
    (h : findAnsibleUser v.data = none) : userOfValue v = "root" := by
  unfold userOfValue
  by_cases hne : v = ""
  · rw [if_neg (by simp [hne])]
  · rw [if_pos hne, h]

/-- `userOfValue` through the strip: a user-headed value yields exactly
the user. -/
theorem userOfValue_extract (u rest : Str) (hu : u ≠ [])
    (huw : ∀ c ∈ u, pyWs c = false)
    (hrest : rest = [] ∨ ∃ r', rest = ' ' :: r' ∧ rstrip r' ≠ []) :
    userOfValue ⟨rstrip ("ansible_user=".data ++ (u ++ rest))⟩ = ⟨u⟩ :=
  userOfValue_of_find _ _ (user_extract u rest hu huw hrest)

/-- `userOfValue` of a value with no `ansible_user=` occurrence is
`root`. -/
theorem userOfValue_root (v : Str)
    (h : substr ("ansible_user=".data) v = false) :
    userOfValue ⟨rstrip v⟩ = "root" := by
  have hpre : substr ("ansible_user=".data) (rstrip v) = false := by
    rcases rstrip_is_prefix v with ⟨t, ht⟩
    rw [ht] at h
    exact substr_of_append_eq_false h
  exact userOfValue_of_find_none _ (findAU_none _ hpre)

end INI

namespace INI

open PyStr

/-- The value as it comes back from the reader: stripped. -/
def parsedVal (a : Agent) : Option String :=
  (agent_value a).map (fun v => (⟨rstrip v.data⟩ : String))

/-- The serialized option line of one agent. -/
def agentLine (a : Agent) : Str := writeOption a.ip (agent_value a)

/-- A user-headed joined value starts with `a`. -/
theorem joined_user_head (u pw : String) :
    ∃ t, (joinSpace (("ansible_user=" ++ u) :: pwTokens pw)).data = 'a' :: t := by
  refine ⟨"nsible_user=".data ++ (u.data ++ pwRest pw), ?_⟩
  rw [joined_user_data]
  rfl

/-- A password-only joined value starts with `a`. -/
theorem pwonly_head (pw : String) (hp : pw ≠ "") :
    ∃ t, (joinSpace (pwTokens pw)).data = 'a' :: t := by
  refine ⟨"nsible_password=".data ++ (pw.data ++
    (' ' :: ("ansible_become_password=".data ++ pw.data))), ?_⟩
  rw [pwonly_data pw hp]
  rfl

/-- Reading one agent line with a present value. -/
theorem readLine_agent_some (mO acc : Options) (lk : Option String)
    (a : Agent) (v : String) (hw : wfKey a.ip)
    (hnl : ∀ c ∈ v.data, c ≠ '\n') (hhead : ∃ t, v.data = 'a' :: t)
    (hfresh : acc.any (fun kv => kv.1 = a.ip) = false) :
    readLine ⟨[("security_server", mO), ("agents", acc)], some "agents", lk⟩
        (writeOption a.ip (some v)) =
      some ⟨[("security_server", mO),
             ("agents", acc ++ [(a.ip, some (⟨rstrip v.data⟩ : String))])],
            some "agents", some a.ip⟩ := by
  obtain ⟨hne, hnws, h1, h2, h3, hx⟩ := hw
  obtain ⟨t, hhead⟩ := hhead
  cases hip : a.ip.data with
  | nil => exact absurd hip hne
  | cons c₀ k' =>
    have hnws' : ∀ c ∈ (c₀ :: k'), pyWs c = false := hip ▸ hnws
    have h1' : c₀ ≠ '[' := fun e => h1 (by rw [hip, e]; rfl)
    have h2' : c₀ ≠ '#' := fun e => h2 (by rw [hip, e]; rfl)
    have h3' : c₀ ≠ ';' := fun e => h3 (by rw [hip, e]; rfl)
    have hmk : (⟨c₀ :: k'⟩ : String) = a.ip := by rw [← hip]
    have hline : writeOption a.ip (some v) = (c₀ :: k') ++ ' ' :: ('a' :: t) := by
      show a.ip.data ++ (' ' :: replaceNlTab v.data) = _
      rw [replaceNlTab_eq_self v.data hnl, hip, hhead]
    rw [hline,
      readLine_option _ ("agents") rfl c₀ k' hnws' h1' h2' h3' 'a' t (by decide),
      hmk, hx, ← hhead, addOption_agents _ _ _ _ hfresh]
    rfl

/-- Reading one agent line updates the `agents` section with that
agent's key and stripped value and marks it as the last option read. -/
theorem readLine_agent (mO acc : Options) (lk : Option String)
    (a : Agent) (hw : wfAgent a)
    (hfresh : acc.any (fun kv => kv.1 = a.ip) = false) :
    readLine ⟨[("security_server", mO), ("agents", acc)], some "agents", lk⟩
        (agentLine a) =
      some ⟨[("security_server", mO), ("agents", acc ++ [(a.ip, parsedVal a)])],
            some "agents", some a.ip⟩ := by
  obtain ⟨hkey, huw, hpw, _⟩ := hw
  by_cases hu : a.user = ""
  · by_cases hp : a.password = ""
    · have hval := agent_value_eq_none a hu hp
      have hline : agentLine a = a.ip.data := by
        unfold agentLine writeOption
        rw [hval]
      obtain ⟨hne, hnws, h1, h2, h3, hx⟩ := hkey
      cases hip : a.ip.data with
      | nil => exact absurd hip hne
      | cons c₀ k' =>
        have hnws' : ∀ c ∈ (c₀ :: k'), pyWs c = false := hip ▸ hnws
        have h1' : c₀ ≠ '[' := fun e => h1 (by rw [hip, e]; rfl)
        have h2' : c₀ ≠ '#' := fun e => h2 (by rw [hip, e]; rfl)
        have h3' : c₀ ≠ ';' := fun e => h3 (by rw [hip, e]; rfl)
        have hmk : (⟨c₀ :: k'⟩ : String) = a.ip := by rw [← hip]
        rw [hline, hip,
          readLine_bare _ ("agents") rfl c₀ k' hnws' h1' h2' h3',
          hmk, hx, addOption_agents _ _ _ _ hfresh]
        unfold parsedVal
        rw [hval]
        rfl
    · have hval := agent_value_eq_pwonly a hu hp
      have hline : agentLine a = writeOption a.ip (some (joinSpace (pwTokens a.password))) := by
        unfold agentLine
        rw [hval]
      have hres := readLine_agent_some mO acc lk a (joinSpace (pwTokens a.password))
        ⟨hkey.1, hkey.2.1, hkey.2.2.1, hkey.2.2.2.1, hkey.2.2.2.2.1, hkey.2.2.2.2.2⟩
        (pwonly_no_nl a.password hpw hp) (pwonly_head a.password hp) hfresh
      rw [hline, hres]
      unfold parsedVal
      rw [hval]
      rfl
  · have hval := agent_value_eq_user a hu
    have hline : agentLine a =
        writeOption a.ip
          (some (joinSpace (("ansible_user=" ++ a.user) :: pwTokens a.password))) := by
      unfold agentLine
      rw [hval]
    have hres := readLine_agent_some mO acc lk a
      (joinSpace (("ansible_user=" ++ a.user) :: pwTokens a.password))
      ⟨hkey.1, hkey.2.1, hkey.2.2.1, hkey.2.2.2.1, hkey.2.2.2.2.1, hkey.2.2.2.2.2⟩
      (joined_user_no_nl a.user a.password huw hpw)
      (joined_user_head a.user a.password) hfresh
    rw [hline, hres]
    unfold parsedVal
    rw [hval]
    rfl

/-- Reading the whole agents region appends one parsed entry per agent,
in order. -/
theorem foldlM_agent_lines :
    ∀ (as : List Agent) (mO acc : Options) (lk : Option String),
    (∀ a ∈ as, wfAgent a) →
    (∀ a ∈ as, acc.any (fun kv => kv.1 = a.ip) = false) →
    (as.map (fun a => a.ip)).Nodup →
    ∃ lk',
      List.foldlM readLine
        (⟨[("security_server", mO), ("agents", acc)], some "agents", lk⟩ : PSt)
        (as.map agentLine) =
      some ⟨[("security_server", mO),
             ("agents", acc ++ as.map (fun a => (a.ip, parsedVal a)))],
            some "agents", lk'⟩
  | [], mO, acc, lk, _, _, _ => ⟨lk, by simp⟩
  | a :: rest, mO, acc, lk, hw, hfresh, hnd => by
    have hstep := readLine_agent mO acc lk a (hw a (by simp))
      (hfresh a (by simp))
    simp only [List.map_cons, List.nodup_cons] at hnd
    have hfresh' : ∀ b ∈ rest,
        (acc ++ [(a.ip, parsedVal a)]).any (fun kv => kv.1 = b.ip) = false := by
      intro b hb
      have hb1 := hfresh b (by simp [hb])
      have hb2 : b.ip ≠ a.ip := by
        intro he
        exact hnd.1 (he ▸ List.mem_map_of_mem (fun x => x.ip) hb)
      simp only [List.any_append, hb1, Bool.false_or, List.any_cons,
        List.any_nil, Bool.or_false, decide_eq_false_iff_not]
      exact Ne.symm hb2
    obtain ⟨lk', hrest⟩ := foldlM_agent_lines rest mO
      (acc ++ [(a.ip, parsedVal a)]) (some a.ip)
      (fun b hb => hw b (by simp [hb])) hfresh' hnd.2
    refine ⟨lk', ?_⟩
    rw [List.map_cons, List.foldlM_cons, hstep]
    simp only [Option.bind_eq_bind, Option.some_bind]
    rw [hrest]
    simp [List.append_assoc]

end INI

namespace INI

open PyStr

/-- A string is nonempty exactly when its character list is. -/
theorem str_ne_empty_iff (s : String) : s ≠ "" ↔ s.data ≠ [] := by
  constructor
  · intro h hd
    exact h (String.ext hd)
  · intro h he
    apply h
    rw [he]

/-- An agent's serialized line contains no newline. -/
theorem agentLine_no_nl (a : Agent) (hw : wfAgent a) :
    ∀ c ∈ agentLine a, c ≠ '\n' := by
  obtain ⟨⟨_, hnws, _, _, _, _⟩, huw, hpw, _⟩ := hw
  have hkey : ∀ c ∈ a.ip.data, c ≠ '\n' :=
    fun c hc => not_nl_of_not_ws (hnws c hc)
  by_cases hu : a.user = ""
  · by_cases hp : a.password = ""
    · intro c hc
      rw [agentLine, agent_value_eq_none a hu hp] at hc
      exact hkey c hc
    · intro c hc
      rw [agentLine, agent_value_eq_pwonly a hu hp] at hc
      have hnl := pwonly_no_nl a.password hpw hp
      revert hc
      show c ∈ a.ip.data ++ (' ' :: replaceNlTab _) → c ≠ '\n'
      rw [replaceNlTab_eq_self _ hnl]
      intro hc
      rcases List.mem_append.mp hc with hc | hc
      · exact hkey c hc
      rcases List.mem_cons.mp hc with rfl | hc
      · decide
      · exact hnl c hc
  · intro c hc
    rw [agentLine, agent_value_eq_user a hu] at hc
    have hnl := joined_user_no_nl a.user a.password huw hpw
    revert hc
    show c ∈ a.ip.data ++ (' ' :: replaceNlTab _) → c ≠ '\n'
    rw [replaceNlTab_eq_self _ hnl]
    intro hc
    rcases List.mem_append.mp hc with hc | hc
    · exact hkey c hc
    rcases List.mem_cons.mp hc with rfl | hc
    · decide
    · exact hnl c hc

/-- Splitting the serialized option block of a section. -/
theorem splitLines_optsBlock (opts : Options) (tail : Str)
    (h : ∀ kv ∈ opts, ∀ c ∈ writeOption kv.1 kv.2, c ≠ '\n') :
    splitLines
        (opts.foldr (fun kv acc => writeOption kv.1 kv.2 ++ ('\n' :: acc)) tail) =
      opts.map (fun kv => writeOption kv.1 kv.2) ++ splitLines tail := by
  induction opts with
  | nil => rfl
  | cons kv rest ih =>
    simp only [List.foldr_cons, List.map_cons, List.cons_append]
    rw [splitLines_append_nl _ _ (h kv (by simp)),
      ih (fun b hb => h b (by simp [hb]))]

/-- Reading the manager's option line into the fresh
`security_server` section. -/
theorem readLine_mgr (lk : Option String) (mip : String) (v : String)
    (hw : wfKey mip) (hnl : ∀ c ∈ v.data, c ≠ '\n')
    (hhead : ∃ t, v.data = 'a' :: t) :
    readLine ⟨[("security_server", [])], some ("security_server"), lk⟩
        (writeOption mip (some v)) =
      some ⟨[("security_server", [(mip, some (⟨rstrip v.data⟩ : String))])],
            some ("security_server"), some mip⟩ := by
  obtain ⟨hne, hnws, h1, h2, h3, hx⟩ := hw
  obtain ⟨t, hhead⟩ := hhead
  cases hip : mip.data with
  | nil => exact absurd hip hne
  | cons c₀ k' =>
    have hnws' : ∀ c ∈ (c₀ :: k'), pyWs c = false := hip ▸ hnws
    have h1' : c₀ ≠ '[' := fun e => h1 (by rw [hip, e]; rfl)
    have h2' : c₀ ≠ '#' := fun e => h2 (by rw [hip, e]; rfl)
    have h3' : c₀ ≠ ';' := fun e => h3 (by rw [hip, e]; rfl)
    have hmk : (⟨c₀ :: k'⟩ : String) = mip := by rw [← hip]
    have hline : writeOption mip (some v) = (c₀ :: k') ++ ' ' :: ('a' :: t) := by
      show mip.data ++ (' ' :: replaceNlTab v.data) = _
      rw [replaceNlTab_eq_self v.data hnl, hip, hhead]
    rw [hline,
      readLine_option _ ("security_server") rfl c₀ k' hnws' h1' h2' h3' 'a' t
        (by decide),
      hmk, hx, ← hhead, addOption_first _ _ _ _ (by simp)]
    rfl

end INI

namespace INI

open PyStr

/-- The serialized two-section inventory file, as raw text. -/
theorem writeIni_two_sections (mip mv : String) (agentOpts : Options) :
    writeIni [("security_server", [(mip, some mv)]), ("agents", agentOpts)] =
      ('[' :: "security_server".data ++ [']']) ++ '\n' ::
        (writeOption mip (some mv) ++ '\n' ::
          ('\n' ::
            (('[' :: "agents".data ++ [']']) ++ '\n' ::
              agentOpts.foldr
                (fun kv acc => writeOption kv.1 kv.2 ++ ('\n' :: acc))
                ['\n']))) := by
  simp [writeIni, writeSection, List.append_assoc]

/-- The line structure of the serialized two-section inventory file. -/
theorem splitLines_writeIni_two (mip mv : String) (agentOpts : Options)
    (hm : ∀ c ∈ writeOption mip (some mv), c ≠ '\n')
    (ho : ∀ kv ∈ agentOpts, ∀ c ∈ writeOption kv.1 kv.2, c ≠ '\n') :
    splitLines
        (writeIni [("security_server", [(mip, some mv)]), ("agents", agentOpts)]) =
      ("[security_server]".data) :: writeOption mip (some mv) :: [] ::
        ("[agents]".data) ::
          (agentOpts.map (fun kv => writeOption kv.1 kv.2) ++ [[], []]) := by
  have hb1 : ('[' :: "security_server".data ++ [']']) = "[security_server]".data := by
    decide
  have hb2 : ('[' :: "agents".data ++ [']']) = "[agents]".data := by decide
  have hnl1 : ∀ c ∈ "[security_server]".data, c ≠ '\n' := by decide
  have hnl2 : ∀ c ∈ "[agents]".data, c ≠ '\n' := by decide
  rw [writeIni_two_sections, hb1, hb2, splitLines_append_nl _ _ hnl1,
    splitLines_append_nl _ _ hm]
  have hmid : splitLines ('\n' :: (("[agents]".data) ++ '\n' ::
      agentOpts.foldr (fun kv acc => writeOption kv.1 kv.2 ++ ('\n' :: acc))
        ['\n'])) =
      [] :: splitLines (("[agents]".data) ++ '\n' ::
        agentOpts.foldr (fun kv acc => writeOption kv.1 kv.2 ++ ('\n' :: acc))
          ['\n']) := by
    simp [splitLines]
  rw [hmid, splitLines_append_nl _ _ hnl2, splitLines_optsBlock _ _ ho]
  simp [splitLines]

/-- The written user token: whitespace-free. -/
theorem defUser_no_ws (muser : String)
    (hu : ∀ c ∈ muser.data, pyWs c = false) :
    ∀ c ∈ (if muser = "" then ("root" : String) else muser).data,
      pyWs c = false := by
  by_cases hme : muser = ""
  · rw [if_pos hme]
    decide
  · rw [if_neg hme]
    exact hu

/-- The written user token: nonempty. -/
theorem defUser_ne_nil (muser : String) :
    (if muser = "" then ("root" : String) else muser).data ≠ [] := by
  by_cases hme : muser = ""
  · rw [if_pos hme]
    decide
  · rw [if_neg hme]
    exact (str_ne_empty_iff muser).mp hme

/-- The manager's joined value contains no newline. -/
theorem mgrVal_no_nl (muser mpw : String)
    (hu : ∀ c ∈ muser.data, pyWs c = false)
    (hp : ∀ c ∈ mpw.data, c ≠ '\n' ∧ c ≠ '\r') :
    ∀ c ∈ (joinSpace (manager_entry_values muser mpw)).data, c ≠ '\n' := by
  rw [manager_entry_values_eq]
  exact joined_user_no_nl _ _ (defUser_no_ws muser hu) hp

/-- The manager's joined value starts with `a`. -/
theorem mgrVal_head (muser mpw : String) :
    ∃ t, (joinSpace (manager_entry_values muser mpw)).data = 'a' :: t := by
  rw [manager_entry_values_eq]
  exact joined_user_head _ mpw

/-- The manager's serialized option line contains no newline. -/
theorem mgrLine_no_nl (mip muser mpw : String)
    (hk : ∀ c ∈ mip.data, pyWs c = false)
    (hu : ∀ c ∈ muser.data, pyWs c = false)
    (hp : ∀ c ∈ mpw.data, c ≠ '\n' ∧ c ≠ '\r') :
    ∀ c ∈ writeOption mip (some (joinSpace (manager_entry_values muser mpw))),
      c ≠ '\n' := by
  have hv := mgrVal_no_nl muser mpw hu hp
  intro c hc
  revert hc
  show c ∈ mip.data ++ (' ' :: replaceNlTab _) → c ≠ '\n'
  rw [replaceNlTab_eq_self _ hv]
  intro hc
  rcases List.mem_append.mp hc with hc | hc
  · exact not_nl_of_not_ws (hk c hc)
  rcases List.mem_cons.mp hc with rfl | hc
  · decide
  · exact hv c hc

/-- The user read back from the manager's stored value. -/
theorem mgr_userOfValue (muser mpw : String)
    (hu : ∀ c ∈ muser.data, pyWs c = false)
    (hp : ∀ c ∈ mpw.data, c ≠ '\n' ∧ c ≠ '\r') :
    userOfValue ⟨rstrip (joinSpace (manager_entry_values muser mpw)).data⟩ =
      (if muser = "" then ("root" : String) else muser) := by
  rw [manager_entry_values_eq, joined_user_data]
  exact userOfValue_extract _ _ (defUser_ne_nil muser)
    (defUser_no_ws muser hu) (pwRest_shape mpw)

/-- The host produced from one parsed agent entry. -/
theorem host_of_parsedVal (a : Agent) (hw : wfAgent a) :
    (match parsedVal a with
     | some v => (⟨a.ip, userOfValue v⟩ : Host)
     | none => ⟨a.ip, "root"⟩) =
      (⟨a.ip, if a.user = "" then "root" else a.user⟩ : Host) := by
  obtain ⟨_, huw, hpw, hsm⟩ := hw
  by_cases hu : a.user = ""
  · by_cases hp : a.password = ""
    · simp [parsedVal, agent_value_eq_none a hu hp, hu]
    · have hval := agent_value_eq_pwonly a hu hp
      have hroot : userOfValue
          ⟨rstrip (joinSpace (pwTokens a.password)).data⟩ = "root" :=
        userOfValue_root _ (hsm hu _ hval)
      simp [parsedVal, hval, hroot, hu]
  · have hval := agent_value_eq_user a hu
    have hx : userOfValue
        ⟨rstrip (joinSpace
          (("ansible_user=" ++ a.user) :: pwTokens a.password)).data⟩ =
        a.user := by
      rw [joined_user_data]
      exact userOfValue_extract _ _ ((str_ne_empty_iff a.user).mp hu)
        huw (pwRest_shape a.password)
    simp [parsedVal, hval, hx, hu]

/-- `foldlM` over an appended list, in the `Option` monad. -/
theorem foldlM_opt_append {α β : Type} (f : β → α → Option β)
    (xs ys : List α) :
    ∀ s : β, (xs ++ ys).foldlM f s =
      (xs.foldlM f s).bind (fun t => ys.foldlM f t) := by
  induction xs with
  | nil =>
    intro s
    simp
  | cons x xs ih =>
    intro s
    rw [List.cons_append, List.foldlM_cons, List.foldlM_cons]
    cases hfx : f s x with
    | none => simp
    | some t => simp [ih t]

end INI

namespace INI

open PyStr

/-- Parsing the file written for one manager and a list of agents with
pairwise-distinct well-formed keys recovers the two sections with the
stripped values. -/
theorem parse_written (mip muser mpw : String) (agents : List Agent)
    (hm : wfKey mip)
    (hmu : ∀ c ∈ muser.data, pyWs c = false)
    (hmp : ∀ c ∈ mpw.data, c ≠ '\n' ∧ c ≠ '\r')
    (hag : ∀ a ∈ agents, wfAgent a)
    (hnd : (agents.map (fun a => a.ip)).Nodup) :
    parseIni (writeIni
        [("security_server",
           [(mip, some (joinSpace (manager_entry_values muser mpw)))]),
         ("agents", agents.map (fun a => (a.ip, agent_value a)))]) =
      some [("security_server",
              [(mip, some (⟨rstrip
                (joinSpace (manager_entry_values muser mpw)).data⟩ : String))]),
            ("agents", agents.map (fun a => (a.ip, parsedVal a)))] := by
  have hmline := mgrLine_no_nl mip muser mpw hm.2.1 hmu hmp
  have holines : ∀ kv ∈ agents.map (fun a => (a.ip, agent_value a)),
      ∀ c ∈ writeOption kv.1 kv.2, c ≠ '\n' := by
    intro kv hkv
    rcases List.mem_map.mp hkv with ⟨a, ha, rfl⟩
    exact agentLine_no_nl a (hag a ha)
  unfold parseIni
  rw [splitLines_writeIni_two _ _ _ hmline holines, List.map_map,
    show ((fun kv : String × Option String => writeOption kv.1 kv.2) ∘
        (fun a : Agent => (a.ip, agent_value a))) = agentLine from rfl]
  have hh1 : readLine ⟨[], none, none⟩ ("[security_server]".data) =
      some ⟨[("security_server", [])], some ("security_server"), none⟩ := by
    decide
  have hh2 := readLine_mgr none mip
    (joinSpace (manager_entry_values muser mpw)) hm
    (mgrVal_no_nl muser mpw hmu hmp) (mgrVal_head muser mpw)
  have hh3 : ∀ o : Options,
      readLine ⟨[("security_server", o)], some ("security_server"), some mip⟩
        [] =
      some ⟨[("security_server", o)], some ("security_server"), none⟩ :=
    fun o => rfl
  have hh4 : ∀ o : Options,
      readLine ⟨[("security_server", o)], some ("security_server"), none⟩
        ("[agents]".data) =
      some ⟨[("security_server", o), ("agents", [])], some ("agents"), none⟩ := by
    intro o
    rw [readLine_header_agents _ (by simp)]
    rfl
  obtain ⟨lk', hh5⟩ := foldlM_agent_lines agents
    [(mip, some (⟨rstrip
      (joinSpace (manager_entry_values muser mpw)).data⟩ : String))] [] none
    hag (by simp) hnd
  simp only [List.nil_append] at hh5
  have htail : ∀ (s : Sections) (lk : Option String),
      List.foldlM readLine (⟨s, some ("agents"), lk⟩ : PSt) [[], []] =
        some ⟨s, some ("agents"), none⟩ := fun s lk => rfl
  rw [List.foldlM_cons, hh1]
  simp only [Option.bind_eq_bind, Option.some_bind]
  rw [List.foldlM_cons, hh2]
  simp only [Option.bind_eq_bind, Option.some_bind]
  rw [List.foldlM_cons, hh3]
  simp only [Option.bind_eq_bind, Option.some_bind]
  rw [List.foldlM_cons, hh4]
  simp only [Option.bind_eq_bind, Option.some_bind]
  rw [foldlM_opt_append, hh5, Option.some_bind, htail]
  rfl

/-- `get_inventory_hosts` through a successful parse. -/
theorem get_hosts_of_parse (text : Str) (secs : Sections)
    (h : parseIni text = some secs) :
    get_inventory_hosts text =
      hostsOfSection secs ("security_server") ++
        hostsOfSection secs ("agents") := by
  unfold get_inventory_hosts
  rw [h]

end INI

/-- C10 (amended): for a manager and agents whose IPs are well-formed
`configparser` keys (nonempty, whitespace-free, not starting a header or
comment, lowercase-stable) and pairwise distinct, with whitespace-free
users and newline-free passwords that never smuggle an `ansible_user=`
fragment into a userless stored value, `update_ini_inventory` followed by
`get_inventory_hosts` returns the manager host first and then one host
per agent in order, each with the stored `ansible_user` (defaulting to
`root` for an empty user). -/
theorem c10_roundtrip (mip muser mpw : String) (agents : List INI.Agent)
    (hm : INI.wfKey mip)
    (hmu : ∀ c ∈ muser.data, PyStr.pyWs c = false)
    (hmp : ∀ c ∈ mpw.data, c ≠ '\n' ∧ c ≠ '\r')
    (hag : ∀ a ∈ agents, INI.wfAgent a)
    (hnd : (agents.map (fun a => a.ip)).Nodup) :
    INI.inventory_roundtrip mip muser mpw agents =
      (⟨mip, if muser = "" then "root" else muser⟩ : INI.Host) ::
        agents.map (fun a =>
          (⟨a.ip, if a.user = "" then "root" else a.user⟩ : INI.Host)) := by
  have hsec := INI.update_ini_sections_eq mip muser mpw agents hm.2.2.2.2.2
    (fun a ha => (hag a ha).1.2.2.2.2.2) hnd
  unfold INI.inventory_roundtrip
  rw [hsec, INI.get_hosts_of_parse _ _
    (INI.parse_written mip muser mpw agents hm hmu hmp hag hnd)]
  have h1 : INI.hostsOfSection
      [("security_server",
         [(mip, some (⟨PyStr.rstrip
           (INI.joinSpace (INI.manager_entry_values muser mpw)).data⟩ :
             String))]),
       ("agents", agents.map (fun a => (a.ip, INI.parsedVal a)))]
      ("security_server") =
      [⟨mip, INI.userOfValue (⟨PyStr.rstrip
        (INI.joinSpace (INI.manager_entry_values muser mpw)).data⟩ :
          String)⟩] := by
    unfold INI.hostsOfSection
    rw [List.find?_cons_of_pos _ (by simp)]
    rfl
  have h2 : INI.hostsOfSection
      [("security_server",
         [(mip, some (⟨PyStr.rstrip
           (INI.joinSpace (INI.manager_entry_values muser mpw)).data⟩ :
             String))]),
       ("agents", agents.map (fun a => (a.ip, INI.parsedVal a)))]
      ("agents") =
      agents.map (fun a =>
        (⟨a.ip, if a.user = "" then "root" else a.user⟩ : INI.Host)) := by
    unfold INI.hostsOfSection
    rw [List.find?_cons_of_neg _ (by simp), List.find?_cons_of_pos _ (by simp)]
    show (agents.map (fun a => (a.ip, INI.parsedVal a))).map
        (fun kv => match kv.2 with
          | some v => (⟨kv.1, INI.userOfValue v⟩ : INI.Host)
          | none => ⟨kv.1, "root"⟩) = _
    rw [List.map_map]
    refine List.map_congr_left ?_
    intro a ha
    exact INI.host_of_parsedVal a (hag a ha)
  rw [h1, h2, INI.mgr_userOfValue muser mpw hmu hmp]
  rfl

/-- Witness: the amended round trip at a concrete two-agent inventory. -/
theorem c10_roundtrip_witness :
    INI.inventory_roundtrip ("1.1.1.1") ("admin") ("pw")
        [⟨"2.2.2.2", "u1", "p1"⟩, ⟨"3.3.3.3", "u2", ""⟩] =
      [⟨"1.1.1.1", "admin"⟩, ⟨"2.2.2.2", "u1"⟩, ⟨"3.3.3.3", "u2"⟩] := by
  have h := c10_roundtrip ("1.1.1.1") ("admin") ("pw")
    [⟨"2.2.2.2", "u1", "p1"⟩, ⟨"3.3.3.3", "u2", ""⟩]
    ⟨by decide, by decide, by decide, by decide, by decide, by decide⟩
    (by decide) (by decide)
    (by
      intro a ha
      rcases List.mem_cons.mp ha with rfl | ha
      · exact ⟨⟨by decide, by decide, by decide, by decide, by decide, by decide⟩,
          by decide, by decide, fun hu => absurd hu (by decide)⟩
      rcases List.mem_cons.mp ha with rfl | ha
      · exact ⟨⟨by decide, by decide, by decide, by decide, by decide, by decide⟩,
          by decide, by decide, fun hu => absurd hu (by decide)⟩
      · exact absurd ha (List.not_mem_nil a))
    (by decide)
  rw [h]
  decide
